import Mathlib

/-!
Shallow embedding of `include/subprocess/subprocess.hpp` (subprocess, a C++
library for shell-style command pipelines), together with theorems settling a
list of claims about its descriptor graph and pipeline execution engine.

The embedding models:
 * the descriptor class hierarchy (`descriptor`, `odescriptor`, `idescriptor`,
   `file_descriptor`, `ofile_descriptor`, `ifile_descriptor`,
   `opipe_descriptor`, `ipipe_descriptor`, `ovariable_descriptor`,
   `ivariable_descriptor`) as a tagged variant `Desc` stored in a heap, with
   pipe partner pointers (`linked_fd_`) as optional heap indices;
 * the operating system as a script of syscall outcomes (`OS`), consumed in
   order, plus a ghost trace of syscall events (`SysEvent`);
 * `posix_process::execute` / `posix_process::wait`,
   `posix_spawn_file_actions`, `link`, `create_pipe`, `command::run(nothrow)`
   and the redirection operators the claims mention.

Machine integers: file descriptors are `Int` with -1 as the library's
"closed/unopened" sentinel; open(2) flags are `Nat` combined with bitwise or,
using the Linux numeric values.
-/

namespace Subprocess

/-! ## Open(2) flag constants (Linux numeric values) -/

def O_RDONLY : Nat := 0
def O_WRONLY : Nat := 1
def O_CREAT : Nat := 64
def O_TRUNC : Nat := 512
def O_APPEND : Nat := 1024

/-! ## The descriptor data model -/

/-- The concrete descriptor classes of the hierarchy.
`plain` is the base class `descriptor` (used for the std stream singletons);
the others are the derived classes of the same names in the source. -/
inductive DescKind
  | plain
  | ofile
  | ifile
  | opipe
  | ipipe
  | ovar
  | ivar
deriving DecidableEq, Repr

/-- State of one descriptor object.

`fd` is `fd_` (-1 when unopened/closed); `path`/`flags` are the
`file_descriptor` constructor parameters; `partner` is the `linked_fd_`
pointer of the pipe classes, as an optional heap index (`none` = null);
`input` is `ivariable_descriptor::input_`; `captured` models the contents of
the caller string referenced by `ovariable_descriptor::output_`. -/
structure Desc where
  kind : DescKind
  fd : Int := -1
  path : String := ""
  flags : Nat := 0
  partner : Option Nat := none
  input : String := ""
  captured : String := ""
deriving DecidableEq, Repr

instance : Inhabited Desc := ⟨{ kind := DescKind.plain }⟩

/-- The error kinds of `subprocess::exceptions`, plus `nullDeref`, which marks
undefined behavior (a dereference of a null pointer) rather than a thrown
exception. -/
inductive Err
  | osError (what : String)
  | usageError (what : String)
  | commandError (code : Int)
  | nullDeref
deriving DecidableEq, Repr

/-- Ghost trace of OS-level events, used to state resource claims.
The `Nat` is the heap index of the descriptor performing the syscall.
`readData`'s boolean records whether the final ::read returned a negative
length (the error branch of `idescriptor::read` ran). -/
inductive SysEvent
  | openedFile (id : Nat) (path : String) (flags : Nat) (ret : Int)
  | pipeCreated (id : Nat) (rd : Int) (wr : Int)
  | closedFd (id : Nat) (fd : Int)
  | readData (id : Nat) (failed : Bool)
  | wroteData (id : Nat)
  | spawned (pid : Int)
deriving DecidableEq, Repr

/-- Scripted outcomes of the syscalls the library makes, consumed in call
order. An exhausted script gives the listed defaults. -/
structure OS where
  /-- results of successive ::open(2) calls; a negative value is a failure.
  Default when exhausted: -1 (failure). -/
  openRes : List Int := []
  /-- results of successive ::pipe(2) calls: `some (readFd, writeFd)` or
  `none` for failure. Default: failure. -/
  pipeRes : List (Option (Int × Int)) := []
  /-- results of successive ::write calls (returned lengths); negative is a
  failure. Default when exhausted: the write succeeds in full. -/
  writeRes : List Int := []
  /-- results of successive ::read calls: `some chunk` (empty chunk = EOF,
  i.e. length 0) or `none` for a negative return. Default: EOF. -/
  readRes : List (Option String) := []
  /-- results of successive ::posix_spawnp calls: `some pid` or `none` for a
  nonzero error return. Default: failure. -/
  spawnRes : List (Option Int) := []
  /-- results of successive ::wordexp calls: `true` iff expansion succeeded
  (we_wordv non-null). Default: success. -/
  wordexpRes : List Bool := []
  /-- spawned children available for reaping: pid mapped to its wait status
  (a child exiting with code c has wait status 256 * c). -/
  waitMap : List (Int × Int) := []
  /-- pids already reaped; ::waitpid fails on them. -/
  reaped : List Int := []
deriving DecidableEq, Repr

/-- Global state: the descriptor heap (indexed by `Nat`, with a fresh-index
counter `next`), the OS script, and the ghost event trace. -/
structure St where
  heap : Nat → Desc
  next : Nat
  os : OS
  events : List SysEvent

def St.getD (st : St) (i : Nat) : Desc := st.heap i

def St.setD (st : St) (i : Nat) (d : Desc) : St :=
  { st with heap := fun j => if j = i then d else st.heap j }

def St.addEvent (st : St) (e : SysEvent) : St :=
  { st with events := st.events ++ [e] }

def St.alloc (st : St) (d : Desc) : St :=
  { st with heap := fun j => if j = st.next then d else st.heap j,
            next := st.next + 1 }

/-- Pop the head of a script list, with a default for the exhausted case. -/
def popD {α : Type} (l : List α) (d : α) : α × List α :=
  match l with
  | [] => (d, [])
  | x :: xs => (x, xs)

def popOpen (st : St) : Int × St :=
  let r := popD st.os.openRes (-1)
  (r.1, { st with os := { st.os with openRes := r.2 } })

def popPipe (st : St) : Option (Int × Int) × St :=
  let r := popD st.os.pipeRes none
  (r.1, { st with os := { st.os with pipeRes := r.2 } })

def popSpawn (st : St) : Option Int × St :=
  let r := popD st.os.spawnRes none
  (r.1, { st with os := { st.os with spawnRes := r.2 } })

def popWordexp (st : St) : Bool × St :=
  let r := popD st.os.wordexpRes true
  (r.1, { st with os := { st.os with wordexpRes := r.2 } })

/-! ## Descriptor operations -/

/-- Virtual `closable()`: the base class `descriptor` returns false; the
`odescriptor`/`idescriptor` overrides (in effect for every derived class)
return `fd() >= 0`. -/
def Desc.closable (d : Desc) : Bool :=
  match d.kind with
  | DescKind.plain => false
  | _ => decide (0 ≤ d.fd)

/-- `odescriptor::write`: loop writing until `total` bytes are written;
a negative ::write return throws `os_error{"write"}`; otherwise the returned
length advances the loop (short writes are retried). Returns the remaining
write script. -/
def writeLoop (total : Nat) (script : List Int) : Except Err (List Int) :=
  if total = 0 then Except.ok script
  else
    match script with
    | [] => Except.ok []
    | w :: rest =>
      if w < 0 then Except.error (Err.osError ("write"))
      else writeLoop (total - w.toNat) rest

/-- The loop of `idescriptor::read`: reads chunks while ::read returns a
positive length, appending to the output. Returns the output, whether the
loop ended with a negative ::read return (in which case the source
constructs `os_error{"read"}` but does not throw it), and the rest of the
read script. -/
def readLoop : List (Option String) → String × Bool × List (Option String)
  | [] => ("", false, [])
  | none :: rest => ("", true, rest)
  | some s :: rest =>
    if s = "" then ("", false, rest)
    else
      let r := readLoop rest
      (s ++ r.1, r.2.1, r.2.2)

/-- `idescriptor::read` on the descriptor at heap index `i`: drains the read
script, returning the obtained string and recording a `readData` event whose
flag says whether the final ::read failed. Never raises: the error branch of
the source constructs an `os_error` and immediately discards it. -/
def readD (st : St) (i : Nat) : String × St :=
  let r := readLoop st.os.readRes
  (r.1, ({ st with os := { st.os with readRes := r.2.2 } }).addEvent
          (SysEvent.readData i r.2.1))

/-- `odescriptor::write` lifted to the state: writes `total` bytes through
the descriptor at index `i`, consuming the write script. -/
def writeD (st : St) (i : Nat) (total : Nat) : Except Err St :=
  match writeLoop total st.os.writeRes with
  | Except.error e => Except.error e
  | Except.ok rest =>
    Except.ok (({ st with os := { st.os with writeRes := rest } }).addEvent
                (SysEvent.wroteData i))

/-- `odescriptor::close` / `idescriptor::close`: if `closable()`, issue
::close on the fd and set `fd_ = -1`; otherwise do nothing. -/
def closeBasic (st : St) (i : Nat) : St :=
  let d := st.getD i
  if d.closable then (st.setD i { d with fd := -1 }).addEvent (SysEvent.closedFd i d.fd)
  else st

/-- Virtual `close()` dispatch. The base class is a no-op; every derived
class uses the `odescriptor`/`idescriptor` override except
`ovariable_descriptor`, which closes its own write end, drains the internal
read pipe into the caller's string (`read()`), closes the read pipe, and
sets `fd_ = -1`. No close path contains a throw. -/
def closeD (st : St) (i : Nat) : St :=
  let d := st.getD i
  match d.kind with
  | DescKind.plain => st
  | DescKind.ovar =>
    if d.closable then
      let st1 := closeBasic st i
      match d.partner with
      | none => st1
      | some j =>
        let r := readD st1 j
        let st2 := r.2.setD i { r.2.getD i with captured := r.1 }
        let st3 := closeBasic st2 j
        st3.setD i { st3.getD i with fd := -1 }
    else st
  | _ => closeBasic st i

/-- Virtual `open()` dispatch across the concrete descriptor classes.

* base `descriptor`: no-op.
* `file_descriptor::open` (shared by `ofile_descriptor` and
  `ifile_descriptor`): returns early when `fd_ > 0` (note: not `>= 0`);
  otherwise issues ::open(path, flags) and either stores the fd or throws
  `os_error`.
* `opipe_descriptor::open` (inherited by `ovariable_descriptor`): returns
  early when `closable()`; otherwise issues ::pipe, throwing `os_error` on
  failure, then writes `linked_fd_->fd_ = fd[0]` (an unchecked dereference of
  the partner pointer: null partner is undefined behavior, modelled as
  `Err.nullDeref`) and `fd_ = fd[1]`.
* `ipipe_descriptor::open`: symmetric, `fd_ = fd[0]`, `linked_fd_->fd_ = fd[1]`.
* `ivariable_descriptor::open`: returns early when `closable()`; otherwise
  performs `ipipe_descriptor::open`, then `write()` (writes the payload into
  the partner `output_pipe_`, possibly throwing on a failed ::write), then
  closes the `output_pipe_`. -/
def openD (st : St) (i : Nat) : Except Err St :=
  let d := st.getD i
  match d.kind with
  | DescKind.plain => Except.ok st
  | DescKind.ofile | DescKind.ifile =>
    if 0 < d.fd then Except.ok st
    else
      let p := popOpen st
      if 0 ≤ p.1 then
        Except.ok ((p.2.setD i { p.2.getD i with fd := p.1 }).addEvent
                    (SysEvent.openedFile i d.path d.flags p.1))
      else Except.error (Err.osError ("open " ++ d.path))
  | DescKind.opipe | DescKind.ovar =>
    if d.closable then Except.ok st
    else
      let p := popPipe st
      match p.1 with
      | none => Except.error (Err.osError ("pipe"))
      | some rw =>
        match d.partner with
        | none => Except.error Err.nullDeref
        | some j =>
          let stA := p.2.setD j { p.2.getD j with fd := rw.1 }
          let stB := stA.setD i { stA.getD i with fd := rw.2 }
          Except.ok (stB.addEvent (SysEvent.pipeCreated i rw.1 rw.2))
  | DescKind.ipipe =>
    if d.closable then Except.ok st
    else
      let p := popPipe st
      match p.1 with
      | none => Except.error (Err.osError ("pipe"))
      | some rw =>
        match d.partner with
        | none => Except.error Err.nullDeref
        | some j =>
          let stA := p.2.setD i { p.2.getD i with fd := rw.1 }
          let stB := stA.setD j { stA.getD j with fd := rw.2 }
          Except.ok (stB.addEvent (SysEvent.pipeCreated i rw.1 rw.2))
  | DescKind.ivar =>
    if d.closable then Except.ok st
    else
      let p := popPipe st
      match p.1 with
      | none => Except.error (Err.osError ("pipe"))
      | some rw =>
        match d.partner with
        | none => Except.error Err.nullDeref
        | some j =>
          let stA := p.2.setD i { p.2.getD i with fd := rw.1 }
          let stB := stA.setD j { stA.getD j with fd := rw.2 }
          let stC := stB.addEvent (SysEvent.pipeCreated i rw.1 rw.2)
          match writeD stC j d.input.length with
          | Except.error e => Except.error e
          | Except.ok stDn => Except.ok (closeBasic stDn j)

/-! ## Linking, pipe creation, constructors -/

def linkedMsg : String :=
  "You tried to link a file descriptor that is already linked to another file descriptor!"

/-- `subprocess::link(ipipe_descriptor&, opipe_descriptor&)`: usage error if
either endpoint already has a partner, otherwise cross-link the two. -/
def link (st : St) (iId oId : Nat) : Except Err St :=
  if (st.getD iId).partner.isSome || (st.getD oId).partner.isSome then
    Except.error (Err.usageError linkedMsg)
  else
    Except.ok ((st.setD iId { st.getD iId with partner := some oId }).setD oId
                { st.getD oId with partner := some iId })

/-- `subprocess::create_pipe()`: allocate a fresh `ipipe_descriptor` and a
fresh `opipe_descriptor` and link them. The OS pipe is not yet created.
Returns `(readId, writeId, state)`. -/
def create_pipe (st : St) : Except Err (Nat × Nat × St) :=
  let rId := st.next
  let st1 := st.alloc { kind := DescKind.ipipe }
  let wId := st1.next
  let st2 := st1.alloc { kind := DescKind.opipe }
  match link st2 rId wId with
  | Except.error e => Except.error e
  | Except.ok st3 => Except.ok (rId, wId, st3)

/-- `ovariable_descriptor` construction: the object plus its member
`input_pipe_` (an `ipipe_descriptor`); the constructor sets
`linked_fd_ = &input_pipe_`, while `input_pipe_.linked_fd_` stays null.
Returns the heap index of the `ovariable_descriptor`. -/
def allocOVar (st : St) : Nat × St :=
  let i := st.next
  let st1 := st.alloc { kind := DescKind.ovar, partner := some (st.next + 1) }
  (i, st1.alloc { kind := DescKind.ipipe })

/-- `ivariable_descriptor` construction with its payload and member
`output_pipe_` (an `opipe_descriptor`). -/
def allocIVar (st : St) (input : String) : Nat × St :=
  let i := st.next
  let st1 := st.alloc { kind := DescKind.ivar, input := input, partner := some (st.next + 1) }
  (i, st1.alloc { kind := DescKind.opipe })

/-- `ofile_descriptor(path, mode)`: `file_descriptor{path, O_WRONLY | mode}`. -/
def mkOfileDesc (path : String) (mode : Nat) : Desc :=
  { kind := DescKind.ofile, path := path, flags := O_WRONLY ||| mode }

/-- `ifile_descriptor(path, mode)`: `file_descriptor{path, O_RDONLY | mode}`. -/
def mkIfileDesc (path : String) (mode : Nat) : Desc :=
  { kind := DescKind.ifile, path := path, flags := O_RDONLY ||| mode }

/-! ## Spawn action builder -/

/-- A child-side file action recorded in a `posix_spawn_file_actions_t`. -/
inductive FAction
  | dup2 (src : Int) (target : Int)
  | closeAct (fd : Int)
deriving DecidableEq, Repr

/-- `posix_util::posix_spawn_file_actions`: the accumulated action list plus
the `closed_fds_` de-duplication set. -/
structure FileActions where
  actions : List FAction := []
  closed_fds : List Int := []
deriving DecidableEq, Repr

/-- `posix_spawn_file_actions::dup`: records a dup2 of the descriptor's fd
onto the target standard fd. -/
def FileActions.dup (a : FileActions) (d : Desc) (target : Int) : FileActions :=
  { a with actions := a.actions ++ [FAction.dup2 d.fd target] }

/-- `posix_spawn_file_actions::close`: records a close of the descriptor's fd
only if the descriptor is closable and that fd has not been added before. -/
def FileActions.close (a : FileActions) (d : Desc) : FileActions :=
  if d.closable && !(a.closed_fds.contains d.fd) then
    { actions := a.actions ++ [FAction.closeAct d.fd], closed_fds := a.closed_fds ++ [d.fd] }
  else a

def closeFdOf : FAction → Option Int
  | FAction.closeAct f => some f
  | FAction.dup2 _ _ => none

/-! ## Process -/

/-- `posix_process`: a command string, three descriptor slots (heap indices;
they default to the std stream singletons at indices 0, 1, 2), and the pid
filled in by `execute()`. -/
structure Process where
  cmd : String
  stdin_fd : Nat := 0
  stdout_fd : Nat := 1
  stderr_fd : Nat := 2
  pid : Option Int := none
deriving DecidableEq, Repr

def slotsOf (p : Process) : List Nat := [p.stdin_fd, p.stdout_fd, p.stderr_fd]

/-- Result of a successful `execute()`: the updated process (pid recorded),
the state after the parent-side closes, and the child-side action list that
was passed to ::posix_spawnp. -/
structure ExecResult where
  proc : Process
  st : St
  actions : List FAction

/-- The open/dup/close-action phase of `posix_process::execute`: for each of
stdin, stdout, stderr call the descriptor's `open()` and record a dup2
action, then record a (de-duplicated) close action for each of the three. -/
def openPhase (p : Process) (st : St) : Except Err (St × FileActions) := do
  let st1 ← openD st p.stdin_fd
  let a1 := FileActions.dup {} (st1.getD p.stdin_fd) 0
  let st2 ← openD st1 p.stdout_fd
  let a2 := a1.dup (st2.getD p.stdout_fd) 1
  let st3 ← openD st2 p.stderr_fd
  let a3 := a2.dup (st3.getD p.stderr_fd) 2
  let a4 := a3.close (st3.getD p.stdin_fd)
  let a5 := a4.close (st3.getD p.stdout_fd)
  let a6 := a5.close (st3.getD p.stderr_fd)
  Except.ok (st3, a6)

/-- The parent-side close phase of `execute()` (after the spawn returns):
`stdin_fd_->close(); stdout_fd_->close(); stderr_fd_->close();`. -/
def closePhase (p : Process) (st : St) : St :=
  closeD (closeD (closeD st p.stdin_fd) p.stdout_fd) p.stderr_fd

/-- `posix_process::execute`.

The `shell_expander` constructor runs ::wordexp first and ignores its return
value. Then the open/dup/close-action phase runs. At the ::posix_spawnp call
the source evaluates `sh.argv()[0]`; when ::wordexp had failed, `we_wordv`
is null and this dereference is undefined behavior (`Err.nullDeref`). A
nonzero spawn return throws `os_error`; on success the pid is recorded and
the three parent-side descriptors are closed. -/
def execute (p : Process) (st0 : St) : Except Err ExecResult :=
  let w := popWordexp st0
  match openPhase p w.2 with
  | Except.error e => Except.error e
  | Except.ok sa =>
    if w.1 then
      match popSpawn sa.1 with
      | (none, _) => Except.error (Err.osError ("posix_spawnp " ++ p.cmd))
      | (some pid, st4) =>
        let st5 := st4.addEvent (SysEvent.spawned pid)
        Except.ok { proc := { p with pid := some pid },
                    st := closePhase p st5,
                    actions := sa.2.actions }
    else Except.error Err.nullDeref

def waitMsg : String := "posix_process.wait() called before posix_process.execute()"

/-- ::waitpid(pid, &status, 0): succeeds (returning the wait status and
marking the pid reaped) iff the pid is an un-reaped child; otherwise fails,
leaving the status untouched. -/
def waitPid (os : OS) (pid : Int) : Option Int × OS :=
  if os.reaped.contains pid then (none, os)
  else
    match os.waitMap.lookup pid with
    | some s => (some s, { os with reaped := os.reaped ++ [pid] })
    | none => (none, os)

/-- WEXITSTATUS for a nonnegative wait status. -/
def wexitstatus (s : Int) : Int := (s / 256) % 256

/-- `posix_process::wait`: usage error when `pid_` is unset; otherwise
`int waitstatus{}; ::waitpid(*pid_, &waitstatus, 0);
return WEXITSTATUS(waitstatus);` — the ::waitpid return value is ignored, so
a failed ::waitpid yields `WEXITSTATUS(0) = 0`. `pid_` is not cleared. -/
def Process.wait (p : Process) (st : St) : Except Err (Int × St) :=
  match p.pid with
  | none => Except.error (Err.usageError waitMsg)
  | some pid =>
    let r := waitPid st.os pid
    let st1 := { st with os := r.2 }
    match r.1 with
    | some s => Except.ok (wexitstatus s, st1)
    | none => Except.ok (wexitstatus 0, st1)

/-! ## Command pipeline -/

/-- `subprocess::command`: an ordered list of processes. -/
structure Command where
  processes : List Process
deriving DecidableEq, Repr

/-- `command::command(std::string)`: a single process on the std streams. -/
def Command.ofString (cmd : String) : Command :=
  { processes := [{ cmd := cmd }] }

def setFirstIn (ps : List Process) (i : Nat) : List Process :=
  match ps with
  | [] => []
  | p :: rest => { p with stdin_fd := i } :: rest

def setLastOut (ps : List Process) (i : Nat) : List Process :=
  match ps with
  | [] => []
  | [p] => [{ p with stdout_fd := i }]
  | p :: rest => p :: setLastOut rest i

/-- `command::operator|(command&&)`: `create_pipe()`, read end to the first
process of the right pipeline, write end to the last process of the left
pipeline, then splice the process lists. -/
def Command.pipeOp (c other : Command) (st : St) : Except Err (Command × St) :=
  match create_pipe st with
  | Except.error e => Except.error e
  | Except.ok r =>
    Except.ok ({ processes := setLastOut c.processes r.2.1 ++ setFirstIn other.processes r.1 },
               r.2.2)

/-- `operator<(command&, descriptor_ptr)`: stdin of the first process. -/
def Command.ltDesc (c : Command) (i : Nat) : Command :=
  { processes := setFirstIn c.processes i }

/-- `operator<(command&, std::filesystem::path)`: the source constructs
`make_descriptor<ofile_descriptor>(file_name.string())` — an
`ofile_descriptor` with default mode, i.e. flags `O_WRONLY | 0` — and
redirects the first process's stdin to it. -/
def Command.ltPath (c : Command) (path : String) (st : St) : Command × St :=
  let i := st.next
  (c.ltDesc i, st.alloc (mkOfileDesc path 0))

/-- Loop 1 of `command::run(nothrow_t)`: execute every process in order. -/
def executeAll : List Process → St → Except Err (List Process × St)
  | [], st => Except.ok ([], st)
  | p :: ps, st =>
    match execute p st with
    | Except.error e => Except.error e
    | Except.ok r =>
      match executeAll ps r.st with
      | Except.error e => Except.error e
      | Except.ok (qs, st') => Except.ok (r.proc :: qs, st')

/-- Loop 2 of `command::run(nothrow_t)`: wait on every process in order,
keeping the last wait's status (`waitstatus` starts at 0). -/
def waitLoop : List Process → Int → St → Except Err (Int × St)
  | [], acc, st => Except.ok (acc, st)
  | p :: ps, _, st =>
    match p.wait st with
    | Except.error e => Except.error e
    | Except.ok r => waitLoop ps r.1 r.2

/-- Specification-side reformulation: the list of all wait statuses. -/
def waitStatuses : List Process → St → Except Err (List Int × St)
  | [], st => Except.ok ([], st)
  | p :: ps, st =>
    match p.wait st with
    | Except.error e => Except.error e
    | Except.ok r =>
      match waitStatuses ps r.2 with
      | Except.error e => Except.error e
      | Except.ok (ss, st') => Except.ok (r.1 :: ss, st')

/-- `command::run(std::nothrow_t)`: execute all processes in order, then
wait on all in order, returning the last wait status. -/
def Command.runNoThrow (c : Command) (st : St) : Except Err (Int × St) :=
  match executeAll c.processes st with
  | Except.error e => Except.error e
  | Except.ok r => waitLoop r.1 0 r.2

/-! ## Initial states and helpers for concrete runs -/

/-- The std stream singletons `std_in()`, `std_out()`, `std_err()`: base
`descriptor` objects bound to fds 0, 1, 2, stored at heap indices 0, 1, 2. -/
def initHeap : Nat → Desc := fun j =>
  if j = 0 then { kind := DescKind.plain, fd := 0 }
  else if j = 1 then { kind := DescKind.plain, fd := 1 }
  else if j = 2 then { kind := DescKind.plain, fd := 2 }
  else default

def initSt (os : OS) : St := { heap := initHeap, next := 3, os := os, events := [] }

def heapOf (l : List Desc) : Nat → Desc := fun i => l.getD i default

def stOf (l : List Desc) (os : OS) : St :=
  { heap := heapOf l, next := l.length, os := os, events := [] }

/-! ## Helper predicates -/

def isFileKind : DescKind → Bool
  | DescKind.ofile => true
  | DescKind.ifile => true
  | _ => false

def pipeOkay : Option (Int × Int) → Bool
  | none => true
  | some rw => decide (0 ≤ rw.1) && decide (0 ≤ rw.2)

/-- Well-formedness of the pipe script: ::pipe never returns negative fds. -/
def pipeWF (os : OS) : Bool := os.pipeRes.all pipeOkay

def isCloseOf (i : Nat) : SysEvent → Bool
  | SysEvent.closedFd j _ => decide (j = i)
  | _ => false

/-- Number of parent-side ::close events of descriptor `i` in a trace. -/
def countClosedFd (es : List SysEvent) (i : Nat) : Nat := es.countP (isCloseOf i)

/-- Heap index of the first process's stdin descriptor. -/
def firstStdin (c : Command) : Nat :=
  match c.processes with
  | [] => 0
  | q :: _ => q.stdin_fd

/-! ## Concrete fixtures used by witnesses and counterexamples -/

/-- C1 scenario: `command{"cat"} < std::filesystem::path{"input.txt"}`. -/
def cC1 : Command × St := Command.ltPath (Command.ofString ("cat")) ("input.txt") (initSt {})

/-- C2 scenario: an opened `ovariable_descriptor` (write end fd 5, internal
read pipe fd 6) whose drain sees one good chunk and then a failing ::read. -/
def stC2 : St := stOf
  [ { kind := DescKind.plain, fd := 0 }, { kind := DescKind.plain, fd := 1 },
    { kind := DescKind.plain, fd := 2 },
    { kind := DescKind.ovar, fd := 5, partner := some 4 },
    { kind := DescKind.ipipe, fd := 6 } ]
  { readRes := [some ("abc"), none] }

/-- C3 scenario: a command string ::wordexp rejects (unmatched command
substitution); the spawn script would succeed if reached. -/
def pC3 : Process := { cmd := "echo $(" }

def stC3 : St := initSt { wordexpRes := [false], spawnRes := [some 9] }

/-- C4 scenario: `"false" | "true"` with child 10 exiting 1 (wait status
256) and child 11 exiting 0. -/
def osFT : OS :=
  { pipeRes := [some (3, 4)], spawnRes := [some 10, some 11],
    waitMap := [(10, 256), (11, 0)] }

def cmdFT : Command × St :=
  match Command.pipeOp (Command.ofString ("false")) (Command.ofString ("true")) (initSt osFT) with
  | Except.ok r => r
  | Except.error _ => (Command.ofString ("x"), initSt osFT)

def cFT : Command := cmdFT.1

def stFT : St := cmdFT.2

/-- C5/C7 scenario heap: std streams plus a linked pipe pair at indices 3
(write end) and 4 (read end). -/
def heapC5 : List Desc :=
  [ { kind := DescKind.plain, fd := 0 }, { kind := DescKind.plain, fd := 1 },
    { kind := DescKind.plain, fd := 2 },
    { kind := DescKind.opipe, partner := some 4 },
    { kind := DescKind.ipipe, partner := some 3 } ]

def stC5 : St := stOf heapC5 { pipeRes := [some (5, 6)], spawnRes := [some 9] }

def pC5 : Process := { cmd := "cat", stdin_fd := 0, stdout_fd := 3, stderr_fd := 2 }

def rC5 : ExecResult :=
  match execute pC5 stC5 with
  | Except.ok r => r
  | Except.error _ => { proc := pC5, st := stC5, actions := [] }

/-- C7 scenario: stderr aliased to stdout (`err(out_t)` makes both slots the
same shared descriptor, here index 3). -/
def pC7 : Process := { cmd := "sh -c x", stdin_fd := 0, stdout_fd := 3, stderr_fd := 3 }

def stC7 : St := stOf heapC5 { pipeRes := [some (5, 6)], spawnRes := [some 9] }

def rC7 : ExecResult :=
  match execute pC7 stC7 with
  | Except.ok r => r
  | Except.error _ => { proc := pC7, st := stC7, actions := [] }

/-- C6 scenario: a fresh state whose next ::pipe returns fds (3, 4). -/
def stC6 : St := initSt { pipeRes := [some (3, 4)] }

def stC6p : St :=
  match create_pipe stC6 with
  | Except.ok r => r.2.2
  | Except.error _ => stC6

/-- C8 counterexample: an `ofile_descriptor` scripted to receive fd 0 from
its first ::open (possible whenever fd 0 is free) and fd 5 from a second. -/
def stC8 : St := stOf [ mkOfileDesc ("f") 0 ] { openRes := [0, 5] }

/-- C8 amended-claim witness: an open pipe write end at fd 3. -/
def stW8 : St := stOf [ { kind := DescKind.opipe, fd := 3, partner := some 1 },
                        { kind := DescKind.ipipe, fd := 4, partner := some 0 } ] {}

/-- C9 counterexample scenario: a process spawned as pid 7 whose child exits
with code 5 (wait status 1280). -/
def pC9 : Process := { cmd := "sh -c (exit 5)" }

def stC9 : St := initSt { spawnRes := [some 7], waitMap := [(7, 1280)] }

/-- C9 amended-claim witness: a process that already executed (pid 7). -/
def pW9 : Process := { cmd := "x", pid := some 7 }

def stW9 : St := initSt { waitMap := [(7, 1280)] }

def stW9r : St := { stW9 with os := { stW9.os with reaped := stW9.os.reaped ++ [7] } }

/-- C10 witness scenarios: an unlinked write end (null `linked_fd_`), and
the linked pair of `stW8`-like shape but unopened. -/
def stC10a : St := stOf [ { kind := DescKind.opipe } ] { pipeRes := [some (3, 4)] }

def stC10b : St := stOf [ { kind := DescKind.opipe, partner := some 1 },
                          { kind := DescKind.ipipe, partner := some 0 } ]
                        { pipeRes := [some (3, 4)] }

def stC10c : St := stOf [ { kind := DescKind.opipe, partner := some 1 },
                          { kind := DescKind.ipipe, partner := some 0 } ]
                        { pipeRes := [none] }

/-! ## Basic lemmas about the state operations -/

theorem getD_setD (st : St) (i j : Nat) (d : Desc) :
    (st.setD i d).getD j = if j = i then d else st.getD j := rfl

theorem getD_setD_self (st : St) (i : Nat) (d : Desc) : (st.setD i d).getD i = d := by
  simp [getD_setD]

theorem getD_setD_other (st : St) (i j : Nat) (d : Desc) (h : j ≠ i) :
    (st.setD i d).getD j = st.getD j := by
  simp [getD_setD, h]

theorem getD_addEvent (st : St) (e : SysEvent) (j : Nat) :
    (st.addEvent e).getD j = st.getD j := rfl

theorem events_setD (st : St) (i : Nat) (d : Desc) : (st.setD i d).events = st.events := rfl

theorem events_addEvent (st : St) (e : SysEvent) :
    (st.addEvent e).events = st.events ++ [e] := rfl

theorem os_setD (st : St) (i : Nat) (d : Desc) : (st.setD i d).os = st.os := rfl

theorem os_addEvent (st : St) (e : SysEvent) : (st.addEvent e).os = st.os := rfl

theorem popWordexp_getD (st : St) (j : Nat) : (popWordexp st).2.getD j = st.getD j := rfl

theorem popWordexp_events (st : St) : (popWordexp st).2.events = st.events := rfl

theorem popWordexp_pipeRes (st : St) : (popWordexp st).2.os.pipeRes = st.os.pipeRes := rfl

theorem popSpawn_getD (st : St) (j : Nat) : (popSpawn st).2.getD j = st.getD j := rfl

theorem popSpawn_events (st : St) : (popSpawn st).2.events = st.events := rfl

theorem popOpen_getD (st : St) (j : Nat) : (popOpen st).2.getD j = st.getD j := rfl

theorem popOpen_events (st : St) : (popOpen st).2.events = st.events := rfl

theorem popPipe_getD (st : St) (j : Nat) : (popPipe st).2.getD j = st.getD j := rfl

theorem popPipe_events (st : St) : (popPipe st).2.events = st.events := rfl

theorem readD_getD (st : St) (i j : Nat) : (readD st i).2.getD j = st.getD j := rfl

theorem countClosedFd_nil (i : Nat) : countClosedFd [] i = 0 := rfl

theorem countClosedFd_append (a b : List SysEvent) (i : Nat) :
    countClosedFd (a ++ b) i = countClosedFd a i + countClosedFd b i :=
  List.countP_append _ _ _

/-! ## Lemmas about `closeBasic` and `closeD` -/

theorem closeBasic_noop (st : St) (i : Nat) (h : (st.getD i).closable = false) :
    closeBasic st i = st := by
  unfold closeBasic
  simp [h]

theorem closeBasic_getD_self (st : St) (i : Nat) (h : (st.getD i).closable = true) :
    (closeBasic st i).getD i = { st.getD i with fd := -1 } := by
  unfold closeBasic
  simp [h, getD_addEvent, getD_setD_self]

theorem closeBasic_getD_other (st : St) (i j : Nat) (h : j ≠ i) :
    (closeBasic st i).getD j = st.getD j := by
  unfold closeBasic
  by_cases hc : (st.getD i).closable <;> simp [hc, getD_addEvent, getD_setD_other _ _ _ _ h]

theorem closeBasic_events (st : St) (i : Nat) :
    (closeBasic st i).events =
      st.events ++ (if (st.getD i).closable then [SysEvent.closedFd i (st.getD i).fd] else []) := by
  unfold closeBasic
  by_cases hc : (st.getD i).closable <;> simp [hc, events_addEvent, events_setD]

theorem closeBasic_os (st : St) (i : Nat) : (closeBasic st i).os = st.os := by
  unfold closeBasic
  by_cases hc : (st.getD i).closable <;> simp [hc, os_addEvent, os_setD]

theorem countClosedFd_closed (a : Nat) (f : Int) (k : Nat) :
    countClosedFd [SysEvent.closedFd a f] k = if a = k then 1 else 0 := by
  by_cases h : a = k <;> simp [countClosedFd, isCloseOf, h]

theorem countClosedFd_read (a : Nat) (b : Bool) (k : Nat) :
    countClosedFd [SysEvent.readData a b] k = 0 := by
  simp [countClosedFd, isCloseOf]

theorem plain_not_closable (d : Desc) (h : d.kind = DescKind.plain) : d.closable = false := by
  unfold Desc.closable
  rw [h]

theorem closeD_noop (st : St) (i : Nat) (h : (st.getD i).closable = false) :
    closeD st i = st := by
  unfold closeD
  cases hk : (st.getD i).kind <;> simp [hk, h, closeBasic_noop st i h]

theorem closeD_self_fd (st : St) (i : Nat) (h : (st.getD i).closable = true) :
    ((closeD st i).getD i).fd = -1 := by
  unfold closeD
  cases hk : (st.getD i).kind
  case plain => rw [plain_not_closable _ hk] at h; exact absurd h (by simp)
  case ovar =>
    simp only [hk, h, if_true]
    cases hp : (st.getD i).partner with
    | none => simp [closeBasic_getD_self st i h]
    | some j => simp [getD_setD_self]
  all_goals simp [hk, closeBasic_getD_self st i h]

theorem closeD_frame (st : St) (i j : Nat) (hj : j ≠ i)
    (hp : (st.getD i).partner ≠ some j) :
    (closeD st i).getD j = st.getD j := by
  unfold closeD
  cases hk : (st.getD i).kind
  case plain => simp [hk]
  case ovar =>
    by_cases h : (st.getD i).closable
    · simp only [hk, h, if_true]
      cases hp2 : (st.getD i).partner with
      | none => exact closeBasic_getD_other _ _ _ hj
      | some k =>
        have hkj : j ≠ k := by
          intro hh
          rw [hh] at hp
          exact hp hp2
        simp [getD_setD_other _ _ _ _ hj, readD_getD,
              closeBasic_getD_other _ _ _ hkj, closeBasic_getD_other _ _ _ hj]
    · simp [hk, h]
  all_goals simp [hk, closeBasic_getD_other _ _ _ hj]

theorem closeBasic_fd_or_neg (st : St) (i j : Nat) :
    ((closeBasic st i).getD j).fd = (st.getD j).fd ∨ ((closeBasic st i).getD j).fd = -1 := by
  by_cases hj : j = i
  · subst hj
    by_cases h : (st.getD j).closable
    · right; simp [closeBasic_getD_self st j h]
    · left; simp [closeBasic_noop st j (by simpa using h)]
  · left; rw [closeBasic_getD_other _ _ _ hj]

theorem closeD_fd_or_neg (st : St) (i j : Nat) :
    ((closeD st i).getD j).fd = (st.getD j).fd ∨ ((closeD st i).getD j).fd = -1 := by
  unfold closeD
  cases hk : (st.getD i).kind
  case plain => simp [hk]
  case ovar =>
    by_cases h : (st.getD i).closable
    · simp only [hk, h, if_true]
      cases hp : (st.getD i).partner with
      | none => exact closeBasic_fd_or_neg st i j
      | some k =>
        by_cases hji : j = i
        · subst hji; right; simp [getD_setD_self]
        · simp only [getD_setD_other _ _ _ _ hji]
          rcases closeBasic_fd_or_neg ((readD (closeBasic st i) k).2.setD i
              { (readD (closeBasic st i) k).2.getD i with
                captured := (readD (closeBasic st i) k).1 }) k j with h1 | h1
          · rw [h1]
            simp only [getD_setD_other _ _ _ _ hji, readD_getD]
            exact closeBasic_fd_or_neg st i j
          · right; exact h1
    · simp [hk, h]
  all_goals simpa [hk] using closeBasic_fd_or_neg st i j

theorem closeBasic_static (st : St) (i j : Nat) :
    ((closeBasic st i).getD j).kind = (st.getD j).kind ∧
    ((closeBasic st i).getD j).partner = (st.getD j).partner := by
  by_cases hj : j = i
  · subst hj
    by_cases h : (st.getD j).closable
    · simp [closeBasic_getD_self st j h]
    · simp [closeBasic_noop st j (by simpa using h)]
  · rw [closeBasic_getD_other _ _ _ hj]; exact ⟨rfl, rfl⟩

theorem statEq_trans {a b c : Desc} (h1 : a.kind = b.kind ∧ a.partner = b.partner)
    (h2 : b.kind = c.kind ∧ b.partner = c.partner) :
    a.kind = c.kind ∧ a.partner = c.partner :=
  ⟨h1.1.trans h2.1, h1.2.trans h2.2⟩

theorem setD_fd_stat (st : St) (i j : Nat) (f : Int) :
    ((st.setD i { st.getD i with fd := f }).getD j).kind = (st.getD j).kind ∧
    ((st.setD i { st.getD i with fd := f }).getD j).partner = (st.getD j).partner := by
  by_cases hj : j = i
  · subst hj; simp [getD_setD_self]
  · rw [getD_setD_other _ _ _ _ hj]; exact ⟨rfl, rfl⟩

theorem setD_cap_stat (st : St) (i j : Nat) (s : String) :
    ((st.setD i { st.getD i with captured := s }).getD j).kind = (st.getD j).kind ∧
    ((st.setD i { st.getD i with captured := s }).getD j).partner = (st.getD j).partner := by
  by_cases hj : j = i
  · subst hj; simp [getD_setD_self]
  · rw [getD_setD_other _ _ _ _ hj]; exact ⟨rfl, rfl⟩

theorem closeD_static (st : St) (i j : Nat) :
    ((closeD st i).getD j).kind = (st.getD j).kind ∧
    ((closeD st i).getD j).partner = (st.getD j).partner := by
  unfold closeD
  cases hk : (st.getD i).kind
  case plain => simp [hk]
  case ovar =>
    by_cases h : (st.getD i).closable
    · simp only [hk, h, if_true]
      cases hp : (st.getD i).partner with
      | none => exact closeBasic_static st i j
      | some k =>
        refine statEq_trans (setD_fd_stat _ i j (-1)) ?_
        refine statEq_trans (closeBasic_static _ k j) ?_
        refine statEq_trans (setD_cap_stat _ i j _) ?_
        rw [readD_getD]
        exact closeBasic_static st i j
    · simp [hk, h]
  all_goals simpa [hk] using closeBasic_static st i j

theorem countClosedFd_opened (a : Nat) (p : String) (fl : Nat) (f : Int) (k : Nat) :
    countClosedFd [SysEvent.openedFile a p fl f] k = 0 := by
  simp [countClosedFd, isCloseOf]

theorem countClosedFd_pipe (a : Nat) (f g : Int) (k : Nat) :
    countClosedFd [SysEvent.pipeCreated a f g] k = 0 := by
  simp [countClosedFd, isCloseOf]

theorem countClosedFd_wrote (a : Nat) (k : Nat) :
    countClosedFd [SysEvent.wroteData a] k = 0 := by
  simp [countClosedFd, isCloseOf]

theorem closable_of_fd_neg (d : Desc) (h : d.fd = -1) : d.closable = false := by
  unfold Desc.closable
  cases hk : d.kind <;> simp [h]

theorem closable_eq_decide (d : Desc) (h : d.kind ≠ DescKind.plain) :
    d.closable = decide (0 ≤ d.fd) := by
  unfold Desc.closable
  cases hk : d.kind <;> simp_all

theorem readD_events (st : St) (i : Nat) :
    (readD st i).2.events = st.events ++ [SysEvent.readData i (readLoop st.os.readRes).2.1] := rfl

theorem closeD_events (st : St) (i : Nat) :
    ∃ new, (closeD st i).events = st.events ++ new ∧
      countClosedFd new i = (if (st.getD i).closable then 1 else 0) ∧
      ∀ k, k ≠ i → countClosedFd new k ≠ 0 → (st.getD i).partner = some k := by
  unfold closeD
  cases hk : (st.getD i).kind
  case plain =>
    refine ⟨[], by simp [hk], ?_, ?_⟩
    · rw [plain_not_closable _ hk]; simp [countClosedFd_nil]
    · intro k _ hc; exact absurd (countClosedFd_nil k) hc
  case ovar =>
    by_cases h : (st.getD i).closable
    · simp only [hk, h, if_true]
      cases hp : (st.getD i).partner with
      | none =>
        refine ⟨[SysEvent.closedFd i (st.getD i).fd], ?_, ?_, ?_⟩
        · rw [closeBasic_events]; simp [h]
        · simp [countClosedFd_closed, h]
        · intro k hki hc
          rw [countClosedFd_closed] at hc
          simp [Ne.symm hki] at hc
      | some k0 =>
        refine ⟨[SysEvent.closedFd i (st.getD i).fd] ++
                [SysEvent.readData k0 (readLoop (closeBasic st i).os.readRes).2.1] ++
                (if ((readD (closeBasic st i) k0).2.setD i
                      { (readD (closeBasic st i) k0).2.getD i with
                        captured := (readD (closeBasic st i) k0).1 }).getD k0
                      |>.closable
                 then [SysEvent.closedFd k0
                        (((readD (closeBasic st i) k0).2.setD i
                          { (readD (closeBasic st i) k0).2.getD i with
                            captured := (readD (closeBasic st i) k0).1 }).getD k0).fd]
                 else []), ?_, ?_, ?_⟩
        · rw [events_setD, closeBasic_events, events_setD, readD_events, closeBasic_events]
          simp [h, List.append_assoc]
        · have hc2 : (((readD (closeBasic st i) k0).2.setD i
              { (readD (closeBasic st i) k0).2.getD i with
                captured := (readD (closeBasic st i) k0).1 }).getD i).fd = -1 := by
            rw [getD_setD_self]
            show ((readD (closeBasic st i) k0).2.getD i).fd = -1
            rw [readD_getD, closeBasic_getD_self st i h]
          rw [countClosedFd_append, countClosedFd_append, countClosedFd_closed,
              countClosedFd_read]
          by_cases hcl : (((readD (closeBasic st i) k0).2.setD i
              { (readD (closeBasic st i) k0).2.getD i with
                captured := (readD (closeBasic st i) k0).1 }).getD k0).closable
          · by_cases hki : k0 = i
            · subst hki
              have := closable_of_fd_neg _ hc2
              rw [this] at hcl
              exact absurd hcl (by simp)
            · simp [hcl, countClosedFd_closed, hki, h, countClosedFd_nil]
          · simp [hcl, h, countClosedFd_nil]
        · intro k hki hc
          rw [countClosedFd_append, countClosedFd_append, countClosedFd_closed,
              countClosedFd_read] at hc
          simp only [Ne.symm hki, if_false, Nat.add_zero, Nat.zero_add] at hc
          by_cases hcl : (((readD (closeBasic st i) k0).2.setD i
              { (readD (closeBasic st i) k0).2.getD i with
                captured := (readD (closeBasic st i) k0).1 }).getD k0).closable
          · rw [if_pos hcl, countClosedFd_closed] at hc
            by_cases hk0 : k0 = k
            · rw [hk0]
            · simp [hk0] at hc
          · rw [if_neg hcl] at hc
            exact absurd rfl hc
    · simp only [hk, h, if_false]
      refine ⟨[], by simp, ?_, ?_⟩
      · simp [h, countClosedFd_nil]
      · intro k _ hc; exact absurd (countClosedFd_nil k) hc
  all_goals {
    refine ⟨if (st.getD i).closable then [SysEvent.closedFd i (st.getD i).fd] else [],
            ?_, ?_, ?_⟩
    · simp only [hk]; rw [closeBasic_events]
    · by_cases h : (st.getD i).closable <;> simp [h, countClosedFd_closed, countClosedFd_nil]
    · intro k hki hc
      by_cases h : (st.getD i).closable
      · rw [if_pos h, countClosedFd_closed] at hc
        simp [Ne.symm hki] at hc
      · rw [if_neg h] at hc
        exact absurd (countClosedFd_nil k) hc
  }

/-! ## Lemmas about `openD` -/

theorem pipeWF_head (os : OS) (rw : Int × Int) (hwf : pipeWF os = true)
    (h : (popD os.pipeRes none).1 = some rw) : 0 ≤ rw.1 ∧ 0 ≤ rw.2 := by
  cases hp : os.pipeRes with
  | nil => rw [hp] at h; exact absurd h (by simp [popD])
  | cons a l =>
    rw [hp] at h
    simp only [popD] at h
    rw [pipeWF, hp, List.all_cons] at hwf
    rw [h] at hwf
    have := (Bool.and_eq_true _ _).mp hwf
    have h1 := this.1
    unfold pipeOkay at h1
    simp at h1
    exact ⟨h1.1, h1.2⟩

theorem pipeWF_popPipe (st : St) (hwf : pipeWF st.os = true) :
    pipeWF (popPipe st).2.os = true := by
  show pipeWF { st.os with pipeRes := (popD st.os.pipeRes none).2 } = true
  cases hp : st.os.pipeRes with
  | nil => simp [pipeWF, popD, hp]
  | cons a l =>
    rw [pipeWF, hp, List.all_cons] at hwf
    have := (Bool.and_eq_true _ _).mp hwf
    simp [pipeWF, popD, hp, this.2]

theorem writeD_getD (st : St) (i : Nat) (t : Nat) (st2 : St)
    (h : writeD st i t = Except.ok st2) (j : Nat) : st2.getD j = st.getD j := by
  unfold writeD at h
  cases hw : writeLoop t st.os.writeRes with
  | error e => rw [hw] at h; exact absurd h (by simp)
  | ok rest =>
    rw [hw] at h
    simp only [Except.ok.injEq] at h
    rw [← h]
    rfl

theorem writeD_events (st : St) (i : Nat) (t : Nat) (st2 : St)
    (h : writeD st i t = Except.ok st2) :
    st2.events = st.events ++ [SysEvent.wroteData i] := by
  unfold writeD at h
  cases hw : writeLoop t st.os.writeRes with
  | error e => rw [hw] at h; exact absurd h (by simp)
  | ok rest =>
    rw [hw] at h
    simp only [Except.ok.injEq] at h
    rw [← h]
    rfl

theorem writeD_pipeRes (st : St) (i : Nat) (t : Nat) (st2 : St)
    (h : writeD st i t = Except.ok st2) : st2.os.pipeRes = st.os.pipeRes := by
  unfold writeD at h
  cases hw : writeLoop t st.os.writeRes with
  | error e => rw [hw] at h; exact absurd h (by simp)
  | ok rest =>
    rw [hw] at h
    simp only [Except.ok.injEq] at h
    rw [← h]
    rfl

theorem openD_noop (st : St) (i : Nat)
    (h1 : 0 ≤ (st.getD i).fd ∨ (st.getD i).kind = DescKind.plain)
    (h2 : isFileKind (st.getD i).kind = true → (st.getD i).fd ≠ 0) :
    openD st i = Except.ok st := by
  unfold openD
  cases hk : (st.getD i).kind
  case plain => simp [hk]
  case ofile =>
    have hfd : 0 ≤ (st.getD i).fd := by
      rcases h1 with h | h
      · exact h
      · rw [hk] at h; exact absurd h (by simp)
    have hne : (st.getD i).fd ≠ 0 := h2 (by rw [hk]; rfl)
    have : 0 < (st.getD i).fd := lt_of_le_of_ne hfd (Ne.symm hne)
    simp [hk, this]
  case ifile =>
    have hfd : 0 ≤ (st.getD i).fd := by
      rcases h1 with h | h
      · exact h
      · rw [hk] at h; exact absurd h (by simp)
    have hne : (st.getD i).fd ≠ 0 := h2 (by rw [hk]; rfl)
    have : 0 < (st.getD i).fd := lt_of_le_of_ne hfd (Ne.symm hne)
    simp [hk, this]
  all_goals {
    have hfd : 0 ≤ (st.getD i).fd := by
      rcases h1 with h | h
      · exact h
      · rw [hk] at h; exact absurd h (by simp)
    have hcl : (st.getD i).closable = true := by
      rw [closable_eq_decide _ (by rw [hk]; simp)]
      exact decide_eq_true hfd
    simp [hk, hcl]
  }

theorem openD_self_fd (st : St) (i : Nat) (st' : St)
    (hwf : pipeWF st.os = true)
    (hself : (st.getD i).partner ≠ some i)
    (hok : openD st i = Except.ok st')
    (hk : (st.getD i).kind ≠ DescKind.plain) :
    0 ≤ (st'.getD i).fd := by
  unfold openD at hok
  cases hkk : (st.getD i).kind
  case plain => exact absurd hkk hk
  case ofile =>
    simp only [hkk] at hok
    split at hok
    · rename_i hf
      simp only [Except.ok.injEq] at hok
      subst hok
      exact le_of_lt hf
    · split at hok
      · rename_i hf hp
        simp only [Except.ok.injEq] at hok
        subst hok
        rw [getD_addEvent, getD_setD_self]
        exact hp
      · exact absurd hok (by simp)
  case ifile =>
    simp only [hkk] at hok
    split at hok
    · rename_i hf
      simp only [Except.ok.injEq] at hok
      subst hok
      exact le_of_lt hf
    · split at hok
      · rename_i hf hp
        simp only [Except.ok.injEq] at hok
        subst hok
        rw [getD_addEvent, getD_setD_self]
        exact hp
      · exact absurd hok (by simp)
  case opipe =>
    simp only [hkk] at hok
    split at hok
    · rename_i hcl
      simp only [Except.ok.injEq] at hok
      subst hok
      rw [closable_eq_decide _ (by rw [hkk]; simp)] at hcl
      exact of_decide_eq_true hcl
    · split at hok
      · exact absurd hok (by simp)
      · rename_i rw2 hpp
        split at hok
        · exact absurd hok (by simp)
        · rename_i j hpa
          simp only [Except.ok.injEq] at hok
          subst hok
          rw [getD_addEvent, getD_setD_self]
          exact (pipeWF_head st.os rw2 hwf hpp).2
  case ovar =>
    simp only [hkk] at hok
    split at hok
    · rename_i hcl
      simp only [Except.ok.injEq] at hok
      subst hok
      rw [closable_eq_decide _ (by rw [hkk]; simp)] at hcl
      exact of_decide_eq_true hcl
    · split at hok
      · exact absurd hok (by simp)
      · rename_i rw2 hpp
        split at hok
        · exact absurd hok (by simp)
        · rename_i j hpa
          simp only [Except.ok.injEq] at hok
          subst hok
          rw [getD_addEvent, getD_setD_self]
          exact (pipeWF_head st.os rw2 hwf hpp).2
  case ipipe =>
    simp only [hkk] at hok
    split at hok
    · rename_i hcl
      simp only [Except.ok.injEq] at hok
      subst hok
      rw [closable_eq_decide _ (by rw [hkk]; simp)] at hcl
      exact of_decide_eq_true hcl
    · split at hok
      · exact absurd hok (by simp)
      · rename_i rw2 hpp
        split at hok
        · exact absurd hok (by simp)
        · rename_i j hpa
          simp only [Except.ok.injEq] at hok
          subst hok
          have hji : j ≠ i := fun h => hself (h ▸ hpa)
          rw [getD_addEvent, getD_setD_other _ _ _ _ (Ne.symm hji), getD_setD_self]
          exact (pipeWF_head st.os rw2 hwf hpp).1
  case ivar =>
    simp only [hkk] at hok
    split at hok
    · rename_i hcl
      simp only [Except.ok.injEq] at hok
      subst hok
      rw [closable_eq_decide _ (by rw [hkk]; simp)] at hcl
      exact of_decide_eq_true hcl
    · split at hok
      · exact absurd hok (by simp)
      · rename_i rw2 hpp
        split at hok
        · exact absurd hok (by simp)
        · rename_i j hpa
          split at hok
          · exact absurd hok (by simp)
          · rename_i stDn hw
            simp only [Except.ok.injEq] at hok
            subst hok
            have hji : j ≠ i := fun h => hself (h ▸ hpa)
            rw [closeBasic_getD_other _ _ _ (Ne.symm hji), writeD_getD _ _ _ _ hw i,
                getD_addEvent, getD_setD_other _ _ _ _ (Ne.symm hji), getD_setD_self]
            exact (pipeWF_head st.os rw2 hwf hpp).1

theorem openD_frame (st : St) (i : Nat) (st' : St) (j : Nat)
    (hok : openD st i = Except.ok st') (hj : j ≠ i)
    (hp : (st.getD i).partner ≠ some j) :
    st'.getD j = st.getD j := by
  unfold openD at hok
  cases hkk : (st.getD i).kind
  case plain =>
    simp only [hkk, Except.ok.injEq] at hok
    subst hok; rfl
  case ofile =>
    simp only [hkk] at hok
    split at hok
    · simp only [Except.ok.injEq] at hok; subst hok; rfl
    · split at hok
      · simp only [Except.ok.injEq] at hok
        subst hok
        rw [getD_addEvent, getD_setD_other _ _ _ _ hj, popOpen_getD]
      · exact absurd hok (by simp)
  case ifile =>
    simp only [hkk] at hok
    split at hok
    · simp only [Except.ok.injEq] at hok; subst hok; rfl
    · split at hok
      · simp only [Except.ok.injEq] at hok
        subst hok
        rw [getD_addEvent, getD_setD_other _ _ _ _ hj, popOpen_getD]
      · exact absurd hok (by simp)
  case opipe =>
    simp only [hkk] at hok
    split at hok
    · simp only [Except.ok.injEq] at hok; subst hok; rfl
    · split at hok
      · exact absurd hok (by simp)
      · rename_i rw2 hpp
        split at hok
        · exact absurd hok (by simp)
        · rename_i k hpa
          simp only [Except.ok.injEq] at hok
          subst hok
          have hjk : j ≠ k := fun h => hp (by rw [h]; exact hpa)
          rw [getD_addEvent, getD_setD_other _ _ _ _ hj, getD_setD_other _ _ _ _ hjk,
              popPipe_getD]
  case ovar =>
    simp only [hkk] at hok
    split at hok
    · simp only [Except.ok.injEq] at hok; subst hok; rfl
    · split at hok
      · exact absurd hok (by simp)
      · rename_i rw2 hpp
        split at hok
        · exact absurd hok (by simp)
        · rename_i k hpa
          simp only [Except.ok.injEq] at hok
          subst hok
          have hjk : j ≠ k := fun h => hp (by rw [h]; exact hpa)
          rw [getD_addEvent, getD_setD_other _ _ _ _ hj, getD_setD_other _ _ _ _ hjk,
              popPipe_getD]
  case ipipe =>
    simp only [hkk] at hok
    split at hok
    · simp only [Except.ok.injEq] at hok; subst hok; rfl
    · split at hok
      · exact absurd hok (by simp)
      · rename_i rw2 hpp
        split at hok
        · exact absurd hok (by simp)
        · rename_i k hpa
          simp only [Except.ok.injEq] at hok
          subst hok
          have hjk : j ≠ k := fun h => hp (by rw [h]; exact hpa)
          rw [getD_addEvent, getD_setD_other _ _ _ _ hjk, getD_setD_other _ _ _ _ hj,
              popPipe_getD]
  case ivar =>
    simp only [hkk] at hok
    split at hok
    · simp only [Except.ok.injEq] at hok; subst hok; rfl
    · split at hok
      · exact absurd hok (by simp)
      · rename_i rw2 hpp
        split at hok
        · exact absurd hok (by simp)
        · rename_i k hpa
          split at hok
          · exact absurd hok (by simp)
          · rename_i stDn hw
            simp only [Except.ok.injEq] at hok
            subst hok
            have hjk : j ≠ k := fun h => hp (by rw [h]; exact hpa)
            rw [closeBasic_getD_other _ _ _ hjk, writeD_getD _ _ _ _ hw j,
                getD_addEvent, getD_setD_other _ _ _ _ hjk, getD_setD_other _ _ _ _ hj,
                popPipe_getD]

theorem openD_static (st : St) (i : Nat) (st' : St) (j : Nat)
    (hok : openD st i = Except.ok st') :
    (st'.getD j).kind = (st.getD j).kind ∧ (st'.getD j).partner = (st.getD j).partner := by
  unfold openD at hok
  cases hkk : (st.getD i).kind
  case plain =>
    simp only [hkk, Except.ok.injEq] at hok
    subst hok; exact ⟨rfl, rfl⟩
  case ofile =>
    simp only [hkk] at hok
    split at hok
    · simp only [Except.ok.injEq] at hok; subst hok; exact ⟨rfl, rfl⟩
    · split at hok
      · simp only [Except.ok.injEq] at hok
        subst hok
        rw [getD_addEvent]
        exact setD_fd_stat _ _ _ _
      · exact absurd hok (by simp)
  case ifile =>
    simp only [hkk] at hok
    split at hok
    · simp only [Except.ok.injEq] at hok; subst hok; exact ⟨rfl, rfl⟩
    · split at hok
      · simp only [Except.ok.injEq] at hok
        subst hok
        rw [getD_addEvent]
        exact setD_fd_stat _ _ _ _
      · exact absurd hok (by simp)
  case opipe =>
    simp only [hkk] at hok
    split at hok
    · simp only [Except.ok.injEq] at hok; subst hok; exact ⟨rfl, rfl⟩
    · split at hok
      · exact absurd hok (by simp)
      · rename_i rw2 hpp
        split at hok
        · exact absurd hok (by simp)
        · rename_i k hpa
          simp only [Except.ok.injEq] at hok
          subst hok
          rw [getD_addEvent]
          exact statEq_trans (setD_fd_stat _ _ _ _) (statEq_trans (setD_fd_stat _ _ _ _) ⟨rfl, rfl⟩)
  case ovar =>
    simp only [hkk] at hok
    split at hok
    · simp only [Except.ok.injEq] at hok; subst hok; exact ⟨rfl, rfl⟩
    · split at hok
      · exact absurd hok (by simp)
      · rename_i rw2 hpp
        split at hok
        · exact absurd hok (by simp)
        · rename_i k hpa
          simp only [Except.ok.injEq] at hok
          subst hok
          rw [getD_addEvent]
          exact statEq_trans (setD_fd_stat _ _ _ _) (statEq_trans (setD_fd_stat _ _ _ _) ⟨rfl, rfl⟩)
  case ipipe =>
    simp only [hkk] at hok
    split at hok
    · simp only [Except.ok.injEq] at hok; subst hok; exact ⟨rfl, rfl⟩
    · split at hok
      · exact absurd hok (by simp)
      · rename_i rw2 hpp
        split at hok
        · exact absurd hok (by simp)
        · rename_i k hpa
          simp only [Except.ok.injEq] at hok
          subst hok
          rw [getD_addEvent]
          exact statEq_trans (setD_fd_stat _ _ _ _) (statEq_trans (setD_fd_stat _ _ _ _) ⟨rfl, rfl⟩)
  case ivar =>
    simp only [hkk] at hok
    split at hok
    · simp only [Except.ok.injEq] at hok; subst hok; exact ⟨rfl, rfl⟩
    · split at hok
      · exact absurd hok (by simp)
      · rename_i rw2 hpp
        split at hok
        · exact absurd hok (by simp)
        · rename_i k hpa
          split at hok
          · exact absurd hok (by simp)
          · rename_i stDn hw
            simp only [Except.ok.injEq] at hok
            subst hok
            refine statEq_trans (closeBasic_static _ _ _) ?_
            rw [writeD_getD _ _ _ _ hw j, getD_addEvent]
            exact statEq_trans (setD_fd_stat _ _ _ _) (statEq_trans (setD_fd_stat _ _ _ _) ⟨rfl, rfl⟩)

theorem openD_events (st : St) (i : Nat) (st' : St)
    (hok : openD st i = Except.ok st') :
    ∃ new, st'.events = st.events ++ new ∧
      ∀ k, countClosedFd new k ≠ 0 → (st.getD i).partner = some k := by
  unfold openD at hok
  cases hkk : (st.getD i).kind
  case plain =>
    simp only [hkk, Except.ok.injEq] at hok
    subst hok
    exact ⟨[], by simp, fun k hc => absurd (countClosedFd_nil k) hc⟩
  case ofile =>
    simp only [hkk] at hok
    split at hok
    · simp only [Except.ok.injEq] at hok; subst hok
      exact ⟨[], by simp, fun k hc => absurd (countClosedFd_nil k) hc⟩
    · split at hok
      · simp only [Except.ok.injEq] at hok
        subst hok
        refine ⟨[SysEvent.openedFile i (st.getD i).path (st.getD i).flags (popOpen st).1],
                by rw [events_addEvent, events_setD, popOpen_events], ?_⟩
        intro k hc
        exact absurd (countClosedFd_opened _ _ _ _ k) hc
      · exact absurd hok (by simp)
  case ifile =>
    simp only [hkk] at hok
    split at hok
    · simp only [Except.ok.injEq] at hok; subst hok
      exact ⟨[], by simp, fun k hc => absurd (countClosedFd_nil k) hc⟩
    · split at hok
      · simp only [Except.ok.injEq] at hok
        subst hok
        refine ⟨[SysEvent.openedFile i (st.getD i).path (st.getD i).flags (popOpen st).1],
                by rw [events_addEvent, events_setD, popOpen_events], ?_⟩
        intro k hc
        exact absurd (countClosedFd_opened _ _ _ _ k) hc
      · exact absurd hok (by simp)
  case opipe =>
    simp only [hkk] at hok
    split at hok
    · simp only [Except.ok.injEq] at hok; subst hok
      exact ⟨[], by simp, fun k hc => absurd (countClosedFd_nil k) hc⟩
    · split at hok
      · exact absurd hok (by simp)
      · rename_i rw2 hpp
        split at hok
        · exact absurd hok (by simp)
        · rename_i k0 hpa
          simp only [Except.ok.injEq] at hok
          subst hok
          refine ⟨[SysEvent.pipeCreated i rw2.1 rw2.2],
                  by rw [events_addEvent, events_setD, events_setD, popPipe_events], ?_⟩
          intro k hc
          exact absurd (countClosedFd_pipe _ _ _ k) hc
  case ovar =>
    simp only [hkk] at hok
    split at hok
    · simp only [Except.ok.injEq] at hok; subst hok
      exact ⟨[], by simp, fun k hc => absurd (countClosedFd_nil k) hc⟩
    · split at hok
      · exact absurd hok (by simp)
      · rename_i rw2 hpp
        split at hok
        · exact absurd hok (by simp)
        · rename_i k0 hpa
          simp only [Except.ok.injEq] at hok
          subst hok
          refine ⟨[SysEvent.pipeCreated i rw2.1 rw2.2],
                  by rw [events_addEvent, events_setD, events_setD, popPipe_events], ?_⟩
          intro k hc
          exact absurd (countClosedFd_pipe _ _ _ k) hc
  case ipipe =>
    simp only [hkk] at hok
    split at hok
    · simp only [Except.ok.injEq] at hok; subst hok
      exact ⟨[], by simp, fun k hc => absurd (countClosedFd_nil k) hc⟩
    · split at hok
      · exact absurd hok (by simp)
      · rename_i rw2 hpp
        split at hok
        · exact absurd hok (by simp)
        · rename_i k0 hpa
          simp only [Except.ok.injEq] at hok
          subst hok
          refine ⟨[SysEvent.pipeCreated i rw2.1 rw2.2],
                  by rw [events_addEvent, events_setD, events_setD, popPipe_events], ?_⟩
          intro k hc
          exact absurd (countClosedFd_pipe _ _ _ k) hc
  case ivar =>
    simp only [hkk] at hok
    split at hok
    · simp only [Except.ok.injEq] at hok; subst hok
      exact ⟨[], by simp, fun k hc => absurd (countClosedFd_nil k) hc⟩
    · split at hok
      · exact absurd hok (by simp)
      · rename_i rw2 hpp
        split at hok
        · exact absurd hok (by simp)
        · rename_i k0 hpa
          split at hok
          · exact absurd hok (by simp)
          · rename_i stDn hw
            simp only [Except.ok.injEq] at hok
            subst hok
            refine ⟨[SysEvent.pipeCreated i rw2.1 rw2.2] ++ [SysEvent.wroteData k0] ++
                    (if (stDn.getD k0).closable then [SysEvent.closedFd k0 (stDn.getD k0).fd]
                     else []), ?_, ?_⟩
            · rw [closeBasic_events, writeD_events _ _ _ _ hw, events_addEvent,
                  events_setD, events_setD, popPipe_events]
              simp [List.append_assoc]
            · intro k hc
              rw [countClosedFd_append, countClosedFd_append, countClosedFd_pipe,
                  countClosedFd_wrote] at hc
              simp only [Nat.zero_add] at hc
              by_cases hcl : (stDn.getD k0).closable
              · rw [if_pos hcl, countClosedFd_closed] at hc
                by_cases hkk0 : k0 = k
                · rw [hpa, hkk0]
                · simp [hkk0] at hc
              · rw [if_neg hcl] at hc
                exact absurd (countClosedFd_nil k) hc

theorem openD_pipeWF (st : St) (i : Nat) (st' : St)
    (hok : openD st i = Except.ok st') (hwf : pipeWF st.os = true) :
    pipeWF st'.os = true := by
  unfold openD at hok
  cases hkk : (st.getD i).kind
  case plain =>
    simp only [hkk, Except.ok.injEq] at hok
    subst hok; exact hwf
  case ofile =>
    simp only [hkk] at hok
    split at hok
    · simp only [Except.ok.injEq] at hok; subst hok; exact hwf
    · split at hok
      · simp only [Except.ok.injEq] at hok; subst hok; exact hwf
      · exact absurd hok (by simp)
  case ifile =>
    simp only [hkk] at hok
    split at hok
    · simp only [Except.ok.injEq] at hok; subst hok; exact hwf
    · split at hok
      · simp only [Except.ok.injEq] at hok; subst hok; exact hwf
      · exact absurd hok (by simp)
  case opipe =>
    simp only [hkk] at hok
    split at hok
    · simp only [Except.ok.injEq] at hok; subst hok; exact hwf
    · split at hok
      · exact absurd hok (by simp)
      · rename_i rw2 hpp
        split at hok
        · exact absurd hok (by simp)
        · rename_i k0 hpa
          simp only [Except.ok.injEq] at hok
          subst hok
          exact pipeWF_popPipe st hwf
  case ovar =>
    simp only [hkk] at hok
    split at hok
    · simp only [Except.ok.injEq] at hok; subst hok; exact hwf
    · split at hok
      · exact absurd hok (by simp)
      · rename_i rw2 hpp
        split at hok
        · exact absurd hok (by simp)
        · rename_i k0 hpa
          simp only [Except.ok.injEq] at hok
          subst hok
          exact pipeWF_popPipe st hwf
  case ipipe =>
    simp only [hkk] at hok
    split at hok
    · simp only [Except.ok.injEq] at hok; subst hok; exact hwf
    · split at hok
      · exact absurd hok (by simp)
      · rename_i rw2 hpp
        split at hok
        · exact absurd hok (by simp)
        · rename_i k0 hpa
          simp only [Except.ok.injEq] at hok
          subst hok
          exact pipeWF_popPipe st hwf
  case ivar =>
    simp only [hkk] at hok
    split at hok
    · simp only [Except.ok.injEq] at hok; subst hok; exact hwf
    · split at hok
      · exact absurd hok (by simp)
      · rename_i rw2 hpp
        split at hok
        · exact absurd hok (by simp)
        · rename_i k0 hpa
          split at hok
          · exact absurd hok (by simp)
          · rename_i stDn hw
            simp only [Except.ok.injEq] at hok
            subst hok
            unfold pipeWF
            rw [closeBasic_os, writeD_pipeRes _ _ _ _ hw]
            have h2 := pipeWF_popPipe st hwf
            unfold pipeWF at h2
            exact h2

/-! ## Lemmas about `openPhase`, `execute`, and the run loops -/

theorem openPhase_eq (p : Process) (st : St) (sa : St × FileActions)
    (hok : openPhase p st = Except.ok sa) :
    ∃ st1 st2, openD st p.stdin_fd = Except.ok st1 ∧
      openD st1 p.stdout_fd = Except.ok st2 ∧
      openD st2 p.stderr_fd = Except.ok sa.1 ∧
      sa.2 = (((((FileActions.dup {} (st1.getD p.stdin_fd) 0).dup
                  (st2.getD p.stdout_fd) 1).dup
                  (sa.1.getD p.stderr_fd) 2).close
                  (sa.1.getD p.stdin_fd)).close
                  (sa.1.getD p.stdout_fd)).close
                  (sa.1.getD p.stderr_fd) := by
  unfold openPhase at hok
  simp only [bind, Except.bind] at hok
  cases h1 : openD st p.stdin_fd with
  | error e => simp only [h1] at hok; exact absurd hok (by simp)
  | ok st1 =>
    simp only [h1] at hok
    cases h2 : openD st1 p.stdout_fd with
    | error e => simp only [h2] at hok; exact absurd hok (by simp)
    | ok st2 =>
      simp only [h2] at hok
      cases h3 : openD st2 p.stderr_fd with
      | error e => simp only [h3] at hok; exact absurd hok (by simp)
      | ok st3 =>
        simp only [h3, Except.ok.injEq] at hok
        subst hok
        exact ⟨st1, st2, rfl, h2, h3, rfl⟩

theorem execute_eq (p : Process) (st0 : St) (r : ExecResult)
    (hok : execute p st0 = Except.ok r) :
    ∃ sa pid st4,
      openPhase p (popWordexp st0).2 = Except.ok sa ∧
      (popWordexp st0).1 = true ∧
      popSpawn sa.1 = (some pid, st4) ∧
      r = { proc := { p with pid := some pid },
            st := closePhase p (st4.addEvent (SysEvent.spawned pid)),
            actions := sa.2.actions } := by
  unfold execute at hok
  cases hop : openPhase p (popWordexp st0).2 with
  | error e => simp only [hop] at hok; exact absurd hok (by simp)
  | ok sa =>
    simp only [hop] at hok
    split at hok
    · rename_i hw
      split at hok
      · exact absurd hok (by simp)
      · rename_i pid st4 hsp
        simp only [Except.ok.injEq] at hok
        exact ⟨sa, pid, st4, rfl, hw, hsp, hok.symm⟩
    · rename_i hw
      exact absurd hok (by simp)

theorem executeAll_pids (ps : List Process) (st : St) (r : List Process × St)
    (hok : executeAll ps st = Except.ok r) : ∀ q ∈ r.1, q.pid.isSome = true := by
  induction ps generalizing st r with
  | nil =>
    simp only [executeAll, Except.ok.injEq] at hok
    intro q hq
    rw [← hok] at hq
    exact absurd hq (by simp)
  | cons p ps ih =>
    simp only [executeAll] at hok
    cases he : execute p st with
    | error e => simp only [he] at hok; exact absurd hok (by simp)
    | ok er =>
      simp only [he] at hok
      cases ha : executeAll ps er.st with
      | error e => simp only [ha] at hok; exact absurd hok (by simp)
      | ok qr =>
        cases qr with
        | mk qs st' =>
          simp only [ha, Except.ok.injEq] at hok
          intro q hq
          rw [← hok] at hq
          rcases List.mem_cons.mp hq with hq | hq
          · obtain ⟨sa, pid, st4, _, _, _, hr⟩ := execute_eq p st er he
            rw [hq, hr]
            rfl
          · exact ih er.st (qs, st') ha q hq

theorem executeAll_ne_nil (ps : List Process) (st : St) (r : List Process × St)
    (hps : ps ≠ []) (hok : executeAll ps st = Except.ok r) : r.1 ≠ [] := by
  cases ps with
  | nil => exact absurd rfl hps
  | cons p ps =>
    simp only [executeAll] at hok
    cases he : execute p st with
    | error e => simp only [he] at hok; exact absurd hok (by simp)
    | ok er =>
      simp only [he] at hok
      cases ha : executeAll ps er.st with
      | error e => simp only [ha] at hok; exact absurd hok (by simp)
      | ok qr =>
        cases qr with
        | mk qs st' =>
          simp only [ha, Except.ok.injEq] at hok
          rw [← hok]
          exact List.cons_ne_nil _ _

theorem waitLoop_eq (ps : List Process) (acc : Int) (st : St) :
    waitLoop ps acc st =
      (waitStatuses ps st).map (fun w => (w.1.getLastD acc, w.2)) := by
  induction ps generalizing acc st with
  | nil => simp [waitLoop, waitStatuses, Except.map]
  | cons p ps ih =>
    cases h : p.wait st with
    | error e => simp [waitLoop, waitStatuses, h, Except.map]
    | ok r =>
      have hL : waitLoop (p :: ps) acc st = waitLoop ps r.1 r.2 := by
        simp only [waitLoop]
        rw [h]
      have hS : waitStatuses (p :: ps) st =
          (match waitStatuses ps r.2 with
           | Except.error e => Except.error e
           | Except.ok (ss, st') => Except.ok (r.1 :: ss, st')) := by
        simp only [waitStatuses]
        rw [h]
      rw [hL, hS, ih r.1 r.2]
      cases h2 : waitStatuses ps r.2 with
      | error e => simp [Except.map]
      | ok w =>
        cases w with
        | mk ss st' =>
          simp only [Except.map]
          cases ss with
          | nil => simp
          | cons a l =>
            cases hls : (a :: l).getLast? with
            | none => simp at hls
            | some b => simp [hls]

theorem waitStatuses_length (ps : List Process) (st : St) (w : List Int × St)
    (hok : waitStatuses ps st = Except.ok w) : w.1.length = ps.length := by
  induction ps generalizing st w with
  | nil =>
    simp only [waitStatuses, Except.ok.injEq] at hok
    rw [← hok]
    rfl
  | cons p ps ih =>
    simp only [waitStatuses] at hok
    cases h : p.wait st with
    | error e => simp only [h] at hok; exact absurd hok (by simp)
    | ok r =>
      simp only [h] at hok
      cases h2 : waitStatuses ps r.2 with
      | error e => simp only [h2] at hok; exact absurd hok (by simp)
      | ok w2 =>
        cases w2 with
        | mk ss st' =>
          simp only [h2, Except.ok.injEq] at hok
          rw [← hok]
          simp [ih r.2 (ss, st') h2]

theorem openD_plain (st : St) (i : Nat) (h : (st.getD i).kind = DescKind.plain) :
    openD st i = Except.ok st := by
  apply openD_noop st i (Or.inr h)
  intro hf
  rw [h] at hf
  exact absurd hf (by simp [isFileKind])

/-- Tracking a slot through one `openD` call: when the opened descriptor is
the slot itself, its fd ends nonnegative; otherwise the slot is untouched. -/
theorem open_track (stX stY : St) (iOp s : Nat)
    (hok : openD stX iOp = Except.ok stY)
    (hwfX : pipeWF stX.os = true)
    (hkS : (stX.getD s).kind ≠ DescKind.plain)
    (hselfS : (stX.getD s).partner ≠ some s)
    (hpOp : iOp ≠ s → (stX.getD iOp).partner ≠ some s)
    (hfd : iOp ≠ s → 0 ≤ (stX.getD s).fd) :
    0 ≤ (stY.getD s).fd := by
  by_cases he : iOp = s
  · subst he
    exact openD_self_fd stX iOp stY hwfX hselfS hok hkS
  · rw [openD_frame stX iOp stY s hok (fun h => he h.symm) (hpOp he)]
    exact hfd he

theorem openPhase_static (p : Process) (stX : St) (sa : St × FileActions)
    (hok : openPhase p stX = Except.ok sa) (j : Nat) :
    (sa.1.getD j).kind = (stX.getD j).kind ∧ (sa.1.getD j).partner = (stX.getD j).partner := by
  obtain ⟨st1, st2, h1, h2, h3, _⟩ := openPhase_eq p stX sa hok
  exact statEq_trans (openD_static _ _ _ j h3)
        (statEq_trans (openD_static _ _ _ j h2) (openD_static _ _ _ j h1))

theorem openPhase_pipeWF (p : Process) (stX : St) (sa : St × FileActions)
    (hok : openPhase p stX = Except.ok sa) (hwfX : pipeWF stX.os = true) :
    pipeWF sa.1.os = true := by
  obtain ⟨st1, st2, h1, h2, h3, _⟩ := openPhase_eq p stX sa hok
  exact openD_pipeWF _ _ _ h3 (openD_pipeWF _ _ _ h2 (openD_pipeWF _ _ _ h1 hwfX))

theorem openPhase_slot_fd (p : Process) (stX : St) (sa : St × FileActions)
    (hok : openPhase p stX = Except.ok sa)
    (hwfX : pipeWF stX.os = true)
    (hpdX : ∀ s ∈ slotsOf p, ∀ j, (stX.getD s).partner = some j → j ∉ slotsOf p)
    (s : Nat) (hs : s ∈ slotsOf p) (hk : (stX.getD s).kind ≠ DescKind.plain) :
    0 ≤ (sa.1.getD s).fd := by
  obtain ⟨st1, st2, h1, h2, h3, _⟩ := openPhase_eq p stX sa hok
  have m0 : p.stdin_fd ∈ slotsOf p := by simp [slotsOf]
  have m1 : p.stdout_fd ∈ slotsOf p := by simp [slotsOf]
  have m2 : p.stderr_fd ∈ slotsOf p := by simp [slotsOf]
  have wf1 : pipeWF st1.os = true := openD_pipeWF _ _ _ h1 hwfX
  have wf2 : pipeWF st2.os = true := openD_pipeWF _ _ _ h2 wf1
  have stat1 := fun j => openD_static _ _ _ j h1
  have stat2 := fun j => openD_static _ _ _ j h2
  have hselfS : (stX.getD s).partner ≠ some s := fun hq => hpdX s hs s hq hs
  have hselfS1 : (st1.getD s).partner ≠ some s := by rw [(stat1 s).2]; exact hselfS
  have hselfS2 : (st2.getD s).partner ≠ some s := by
    rw [(stat2 s).2, (stat1 s).2]; exact hselfS
  have hkS1 : (st1.getD s).kind ≠ DescKind.plain := by rw [(stat1 s).1]; exact hk
  have hkS2 : (st2.getD s).kind ≠ DescKind.plain := by
    rw [(stat2 s).1, (stat1 s).1]; exact hk
  have hpd1 : ∀ t ∈ slotsOf p, t ≠ s → (st1.getD t).partner ≠ some s := by
    intro t ht _ hq
    rw [(stat1 t).2] at hq
    exact hpdX t ht s hq hs
  have hpd2 : ∀ t ∈ slotsOf p, t ≠ s → (st2.getD t).partner ≠ some s := by
    intro t ht _ hq
    rw [(stat2 t).2, (stat1 t).2] at hq
    exact hpdX t ht s hq hs
  have hpd0 : ∀ t ∈ slotsOf p, t ≠ s → (stX.getD t).partner ≠ some s := by
    intro t ht _ hq
    exact hpdX t ht s hq hs
  by_cases e0 : p.stdin_fd = s
  · have f1 : 0 ≤ (st1.getD s).fd := by
      subst e0
      exact openD_self_fd stX p.stdin_fd st1 hwfX hselfS h1 hk
    have f2 : 0 ≤ (st2.getD s).fd :=
      open_track st1 st2 p.stdout_fd s h2 wf1 hkS1 hselfS1
        (fun hne => hpd1 p.stdout_fd m1 hne) (fun _ => f1)
    exact open_track st2 sa.1 p.stderr_fd s h3 wf2 hkS2 hselfS2
        (fun hne => hpd2 p.stderr_fd m2 hne) (fun _ => f2)
  · by_cases e1 : p.stdout_fd = s
    · have f0 : st1.getD s = stX.getD s :=
        openD_frame stX p.stdin_fd st1 s h1 (fun h => e0 h.symm) (hpd0 p.stdin_fd m0 e0)
      have f2 : 0 ≤ (st2.getD s).fd := by
        subst e1
        exact openD_self_fd st1 p.stdout_fd st2 wf1 hselfS1 h2 hkS1
      exact open_track st2 sa.1 p.stderr_fd s h3 wf2 hkS2 hselfS2
          (fun hne => hpd2 p.stderr_fd m2 hne) (fun _ => f2)
    · have e2 : p.stderr_fd = s := by
        rcases (by simpa [slotsOf] using hs : s = p.stdin_fd ∨ s = p.stdout_fd ∨ s = p.stderr_fd)
          with h | h | h
        · exact absurd h.symm e0
        · exact absurd h.symm e1
        · exact h.symm
      have f2 : st2.getD s = stX.getD s := by
        rw [openD_frame st1 p.stdout_fd st2 s h2 (fun h => e1 h.symm) (hpd1 p.stdout_fd m1 e1),
            openD_frame stX p.stdin_fd st1 s h1 (fun h => e0 h.symm) (hpd0 p.stdin_fd m0 e0)]
      subst e2
      exact openD_self_fd st2 p.stderr_fd sa.1 wf2 hselfS2 h3 hkS2

theorem popWordexp_pipeWF (st : St) (hwf : pipeWF st.os = true) :
    pipeWF (popWordexp st).2.os = true := by
  unfold pipeWF
  rw [popWordexp_pipeRes]
  exact hwf

/-! ## Lemmas about the spawn-action builder -/

theorem dup_actions (a : FileActions) (d : Desc) (t : Int) :
    (a.dup d t).actions.filterMap closeFdOf = a.actions.filterMap closeFdOf ∧
    (a.dup d t).closed_fds = a.closed_fds := by
  unfold FileActions.dup
  constructor
  · rw [List.filterMap_append]
    simp [closeFdOf]
  · rfl

theorem close_skip (a : FileActions) (d : Desc) (h : d.closable = false) :
    FileActions.close a d = a := by
  unfold FileActions.close
  rw [if_neg]
  simp [h]

theorem close_add (a : FileActions) (d : Desc) (h : d.closable = true)
    (h2 : d.fd ∉ a.closed_fds) :
    FileActions.close a d =
      { actions := a.actions ++ [FAction.closeAct d.fd],
        closed_fds := a.closed_fds ++ [d.fd] } := by
  unfold FileActions.close
  rw [if_pos]
  simp [h, h2]

theorem close_already (a : FileActions) (d : Desc)
    (h2 : d.fd ∈ a.closed_fds) :
    FileActions.close a d = a := by
  unfold FileActions.close
  rw [if_neg]
  simp [h2]

theorem close_fold_inv (ds : List Desc) (a : FileActions)
    (hNodup : a.closed_fds.Nodup)
    (hfds : a.actions.filterMap closeFdOf = a.closed_fds) :
    (ds.foldl FileActions.close a).closed_fds.Nodup ∧
    (ds.foldl FileActions.close a).actions.filterMap closeFdOf
      = (ds.foldl FileActions.close a).closed_fds ∧
    ∀ f, f ∈ (ds.foldl FileActions.close a).closed_fds ↔
          f ∈ a.closed_fds ∨ ∃ d ∈ ds, d.closable = true ∧ d.fd = f := by
  induction ds generalizing a with
  | nil =>
    refine ⟨hNodup, hfds, ?_⟩
    intro f
    simp
  | cons d ds ih =>
    simp only [List.foldl_cons]
    by_cases hc : (d.closable && !(a.closed_fds.contains d.fd)) = true
    · have hcl : d.closable = true := ((Bool.and_eq_true _ _).mp hc).1
      have hContains : a.closed_fds.contains d.fd = false := by
        have := ((Bool.and_eq_true _ _).mp hc).2
        simpa using this
      have hstep : FileActions.close a d =
          { actions := a.actions ++ [FAction.closeAct d.fd],
            closed_fds := a.closed_fds ++ [d.fd] } := by
        unfold FileActions.close
        rw [if_pos hc]
      rw [hstep]
      have hnotmem : d.fd ∉ a.closed_fds := by simpa using hContains
      have hN2 : (a.closed_fds ++ [d.fd]).Nodup := by
        refine List.Nodup.append hNodup (List.nodup_singleton _) ?_
        intro x hx hx2
        rw [List.mem_singleton] at hx2
        subst hx2
        exact hnotmem hx
      have hF2 : (a.actions ++ [FAction.closeAct d.fd]).filterMap closeFdOf
          = a.closed_fds ++ [d.fd] := by
        rw [List.filterMap_append, hfds]
        simp [closeFdOf]
      obtain ⟨x1, x2, x3⟩ := ih { actions := a.actions ++ [FAction.closeAct d.fd],
                                  closed_fds := a.closed_fds ++ [d.fd] } hN2 hF2
      refine ⟨x1, x2, ?_⟩
      intro f
      rw [x3 f]
      constructor
      · rintro (hf | ⟨d', hd', hcl', hfd'⟩)
        · rcases List.mem_append.mp hf with hf2 | hf2
          · exact Or.inl hf2
          · rw [List.mem_singleton] at hf2
            exact Or.inr ⟨d, List.mem_cons_self _ _, hcl, hf2.symm⟩
        · exact Or.inr ⟨d', List.mem_cons_of_mem _ hd', hcl', hfd'⟩
      · rintro (hf | ⟨d', hd', hcl', hfd'⟩)
        · exact Or.inl (List.mem_append.mpr (Or.inl hf))
        · rcases List.mem_cons.mp hd' with hd2 | hd2
          · subst hd2
            exact Or.inl (List.mem_append.mpr (Or.inr (by rw [List.mem_singleton, hfd'])))
          · exact Or.inr ⟨d', hd2, hcl', hfd'⟩
    · have hstep : FileActions.close a d = a := by
        unfold FileActions.close
        rw [if_neg hc]
      rw [hstep]
      obtain ⟨x1, x2, x3⟩ := ih a hNodup hfds
      refine ⟨x1, x2, ?_⟩
      intro f
      rw [x3 f]
      constructor
      · rintro (hf | ⟨d', hd', hcl', hfd'⟩)
        · exact Or.inl hf
        · exact Or.inr ⟨d', List.mem_cons_of_mem _ hd', hcl', hfd'⟩
      · rintro (hf | ⟨d', hd', hcl', hfd'⟩)
        · exact Or.inl hf
        · rcases List.mem_cons.mp hd' with hd2 | hd2
          · subst hd2
            simp only [hcl', Bool.true_and] at hc
            have hmem2 : d'.fd ∈ a.closed_fds := by simpa using hc
            exact Or.inl (by rw [← hfd']; exact hmem2)
          · exact Or.inr ⟨d', hd2, hcl', hfd'⟩

theorem alloc_next (st : St) (d : Desc) : (st.alloc d).next = st.next + 1 := rfl

theorem getD_alloc_self (st : St) (d : Desc) : (st.alloc d).getD st.next = d := by
  simp [St.alloc, St.getD]

theorem getD_alloc_other (st : St) (d : Desc) (j : Nat) (h : j ≠ st.next) :
    (st.alloc d).getD j = st.getD j := by
  simp [St.alloc, St.getD, h]

theorem create_pipe_spec (st : St) :
    ∃ st1, create_pipe st = Except.ok (st.next, st.next + 1, st1) ∧
      (st1.getD st.next).kind = DescKind.ipipe ∧
      (st1.getD st.next).partner = some (st.next + 1) ∧
      (st1.getD st.next).fd = -1 ∧
      (st1.getD (st.next + 1)).kind = DescKind.opipe ∧
      (st1.getD (st.next + 1)).partner = some st.next ∧
      (st1.getD (st.next + 1)).fd = -1 ∧
      st1.os = st.os ∧ st1.events = st.events := by
  have hne : st.next ≠ st.next + 1 := Nat.ne_of_lt (Nat.lt_succ_self _)
  have h1 : ((st.alloc { kind := DescKind.ipipe }).alloc { kind := DescKind.opipe }).getD st.next
      = { kind := DescKind.ipipe } := by
    rw [getD_alloc_other _ _ _ hne, getD_alloc_self]
  have h2 : ((st.alloc { kind := DescKind.ipipe }).alloc { kind := DescKind.opipe }).getD
      (st.next + 1) = { kind := DescKind.opipe } := getD_alloc_self _ _
  have hlink : link ((st.alloc { kind := DescKind.ipipe }).alloc { kind := DescKind.opipe })
      st.next (st.next + 1) = Except.ok
        ((((st.alloc { kind := DescKind.ipipe }).alloc { kind := DescKind.opipe }).setD st.next
          { kind := DescKind.ipipe, partner := some (st.next + 1) }).setD (st.next + 1)
          { kind := DescKind.opipe, partner := some st.next }) := by
    unfold link
    rw [h1, h2]
    rfl
  refine ⟨(((st.alloc { kind := DescKind.ipipe }).alloc { kind := DescKind.opipe }).setD st.next
            { kind := DescKind.ipipe, partner := some (st.next + 1) }).setD (st.next + 1)
            { kind := DescKind.opipe, partner := some st.next },
          ?_, ?_, ?_, ?_, ?_, ?_, ?_, ?_, ?_⟩
  · simp only [create_pipe, alloc_next]
    rw [hlink]
  · rw [getD_setD_other _ _ _ _ hne, getD_setD_self]
  · rw [getD_setD_other _ _ _ _ hne, getD_setD_self]
  · rw [getD_setD_other _ _ _ _ hne, getD_setD_self]
  · rw [getD_setD_self]
  · rw [getD_setD_self]
  · rw [getD_setD_self]
  · rfl
  · rfl

theorem openD_ipipe_eq (st : St) (i j : Nat) (rd wr : Int) (rest : List (Option (Int × Int)))
    (hk : (st.getD i).kind = DescKind.ipipe)
    (hcl : (st.getD i).closable = false)
    (hpipe : st.os.pipeRes = some (rd, wr) :: rest)
    (hpa : (st.getD i).partner = some j) :
    openD st i = Except.ok
      ((((popPipe st).2.setD i { (popPipe st).2.getD i with fd := rd }).setD j
        { ((popPipe st).2.setD i { (popPipe st).2.getD i with fd := rd }).getD j with
          fd := wr }).addEvent (SysEvent.pipeCreated i rd wr)) := by
  have hpp : (popPipe st).1 = some (rd, wr) := by
    show (popD st.os.pipeRes none).1 = some (rd, wr)
    rw [hpipe]
    rfl
  unfold openD
  simp [hk, hcl, hpp, hpa]

theorem openD_opipe_eq (st : St) (i j : Nat) (rd wr : Int) (rest : List (Option (Int × Int)))
    (hk : (st.getD i).kind = DescKind.opipe)
    (hcl : (st.getD i).closable = false)
    (hpipe : st.os.pipeRes = some (rd, wr) :: rest)
    (hpa : (st.getD i).partner = some j) :
    openD st i = Except.ok
      ((((popPipe st).2.setD j { (popPipe st).2.getD j with fd := rd }).setD i
        { ((popPipe st).2.setD j { (popPipe st).2.getD j with fd := rd }).getD i with
          fd := wr }).addEvent (SysEvent.pipeCreated i rd wr)) := by
  have hpp : (popPipe st).1 = some (rd, wr) := by
    show (popD st.os.pipeRes none).1 = some (rd, wr)
    rw [hpipe]
    rfl
  unfold openD
  simp [hk, hcl, hpp, hpa]

theorem closeD_keep_neg (stX : St) (iOp j : Nat) (h : (stX.getD j).fd = -1) :
    ((closeD stX iOp).getD j).fd = -1 := by
  rcases closeD_fd_or_neg stX iOp j with hc | hc
  · rw [hc]; exact h
  · exact hc

theorem openPhase_events (p : Process) (stX : St) (sa : St × FileActions)
    (hok : openPhase p stX = Except.ok sa)
    (hpdX : ∀ s ∈ slotsOf p, ∀ j, (stX.getD s).partner = some j → j ∉ slotsOf p) :
    ∃ new, sa.1.events = stX.events ++ new ∧
      ∀ s ∈ slotsOf p, countClosedFd new s = 0 := by
  obtain ⟨st1, st2, h1, h2, h3, _⟩ := openPhase_eq p stX sa hok
  obtain ⟨n1, e1, c1⟩ := openD_events _ _ _ h1
  obtain ⟨n2, e2, c2⟩ := openD_events _ _ _ h2
  obtain ⟨n3, e3, c3⟩ := openD_events _ _ _ h3
  have m0 : p.stdin_fd ∈ slotsOf p := by simp [slotsOf]
  have m1 : p.stdout_fd ∈ slotsOf p := by simp [slotsOf]
  have m2 : p.stderr_fd ∈ slotsOf p := by simp [slotsOf]
  refine ⟨n1 ++ n2 ++ n3, by rw [e3, e2, e1]; simp [List.append_assoc], ?_⟩
  intro s hs
  rw [countClosedFd_append, countClosedFd_append]
  have z1 : countClosedFd n1 s = 0 := by
    by_contra hz
    exact hpdX p.stdin_fd m0 s (c1 s hz) hs
  have z2 : countClosedFd n2 s = 0 := by
    by_contra hz
    have hq := c2 s hz
    rw [(openD_static _ _ _ p.stdout_fd h1).2] at hq
    exact hpdX p.stdout_fd m1 s hq hs
  have z3 : countClosedFd n3 s = 0 := by
    by_contra hz
    have hq := c3 s hz
    rw [(openD_static _ _ _ p.stderr_fd h2).2, (openD_static _ _ _ p.stderr_fd h1).2] at hq
    exact hpdX p.stderr_fd m2 s hq hs
  rw [z1, z2, z3]

/-! ## Claim theorems -/

/-- C1: the claim says `cmd < path` sets the first process's stdin to an
input-file descriptor whose open is read-only. The code instead constructs
an `ofile_descriptor`, whose flags are `O_WRONLY | 0`: evaluating
`command{"cat"} < path{"input.txt"}` yields a stdin descriptor of kind
`ofile` with flags `O_WRONLY`, which differs from `O_RDONLY`. The second
half of the claim is true of the class the code does not use:
`ifile_descriptor`'s constructor forces `O_RDONLY`. -/
theorem stdin_path_redirect_is_write_only :
    (cC1.2.getD (firstStdin cC1.1)).kind = DescKind.ofile ∧
    (cC1.2.getD (firstStdin cC1.1)).flags = O_WRONLY ∧
    O_WRONLY ≠ O_RDONLY ∧
    (mkIfileDesc ("input.txt") 0).kind = DescKind.ifile ∧
    (mkIfileDesc ("input.txt") 0).flags = O_RDONLY := by
  refine ⟨rfl, rfl, by decide, rfl, rfl⟩

/-- C2: the claim says a failed ::read while an output buffer drains during
close() raises an OS error that surfaces to the caller. In the source,
`idescriptor::read` merely constructs `exceptions::os_error{"read"}` without
throwing it, so `ovariable_descriptor::close` completes normally: on a state
whose read script returns one chunk and then fails, close() returns (the
embedding's close path is total — no close path in the source contains a
throw), stores the partial output, closes both fds, and the trace records
the failed read (`readData 4 true`). No error reaches the caller. -/
theorem ovariable_close_swallows_read_error :
    ((closeD stC2 3).getD 3).fd = -1 ∧
    ((closeD stC2 3).getD 3).captured = "abc" ∧
    ((closeD stC2 3).getD 4).fd = -1 ∧
    (closeD stC2 3).events =
      [SysEvent.closedFd 3 5, SysEvent.readData 4 true, SysEvent.closedFd 4 6] := by
  refine ⟨rfl, rfl, rfl, rfl⟩

/-- C3: the claim says a shell-word-expansion failure surfaces to the caller
of execute() as an OS error. The `shell_expander` constructor discards
::wordexp's return value, so no error is raised for the failed expansion;
execute() proceeds and dereferences the null `we_wordv` at the
::posix_spawnp call (`sh.argv()[0]`), which is undefined behavior — modelled
as `Err.nullDeref`, not an `Err.osError`. -/
theorem execute_ignores_wordexp_failure :
    execute pC3 stC3 = Except.error Err.nullDeref := by
  rfl

/-- C8 counterexample: `file_descriptor::open` guards re-opening with
`fd_ > 0`, not `fd_ >= 0`. An `ofile_descriptor` whose first ::open returns
fd 0 (possible whenever fd 0 is free) is an open descriptor, yet a second
open() call re-opens the file: the fd changes from 0 to 5 and a second
`openedFile` event (a new OS resource) is recorded, refuting open
idempotence as universally claimed. -/
theorem file_reopen_at_fd_zero :
    ((openD stC8 0).bind (fun s1 =>
      (openD s1 0).map (fun s2 => ((s1.getD 0).fd, (s2.getD 0).fd, s2.events.length))))
      = Except.ok (0, 5, 2) := by
  rfl

/-- C8 (amended): open() on an already-open descriptor is a no-op — it does
not allocate a new OS resource and does not change fd() — provided a file
descriptor's fd is nonzero; for pipe, buffer and standard-stream variants,
any open state (fd ≥ 0) suffices. (The sole exception, a file descriptor
open at fd 0, is the counterexample above.) -/
theorem open_noop_when_already_open (st : St) (i : Nat)
    (h1 : 0 ≤ (st.getD i).fd ∨ (st.getD i).kind = DescKind.plain)
    (h2 : isFileKind (st.getD i).kind = true → (st.getD i).fd ≠ 0) :
    openD st i = Except.ok st :=
  openD_noop st i h1 h2

/-- C8 witness: the amended theorem applied to an open pipe write end. -/
theorem open_noop_witness : openD stW8 0 = Except.ok stW8 :=
  open_noop_when_already_open stW8 0 (Or.inl (by decide)) (by decide)

/-- C9 counterexample: a process is spawned (pid 7, child exit status 5);
the first wait() returns 5, and a second wait() on the same process — which
the claim calls invalid — is not rejected: it returns `Except.ok 0`
(::waitpid fails on the reaped pid, the failure is ignored, and
`WEXITSTATUS` of the untouched zero wait status is returned), not a usage
error. -/
theorem second_wait_not_rejected :
    ((execute pC9 stC9).bind (fun r =>
      (r.proc.wait r.st).bind (fun w1 =>
        (r.proc.wait w1.2).map (fun w2 => (w1.1, w2.1)))))
      = Except.ok (5, 0) := by
  rfl

/-- C9 (amended): wait() raises the usage error iff execute() has not
succeeded (`pid_` unset; execute() sets it on every success). A wait() on a
set pid always returns `Except.ok`: a first wait reaps the child and returns
its exit status, while a repeated wait (pid already reaped) or a wait on an
unknown pid is not rejected — ::waitpid's failure is ignored and exit
status 0 is returned. -/
theorem wait_validity_amended (p : Process) (st : St) :
    (p.pid = none → p.wait st = Except.error (Err.usageError waitMsg)) ∧
    (∀ pid, p.pid = some pid →
      (st.os.reaped.contains pid = false →
        ∀ s, st.os.waitMap.lookup pid = some s →
          p.wait st = Except.ok (wexitstatus s,
            { st with os := { st.os with reaped := st.os.reaped ++ [pid] } })) ∧
      (st.os.reaped.contains pid = true → p.wait st = Except.ok (0, st)) ∧
      (st.os.reaped.contains pid = false → st.os.waitMap.lookup pid = none →
        p.wait st = Except.ok (0, st))) ∧
    (∀ st0 r, execute p st0 = Except.ok r → r.proc.pid.isSome = true) := by
  refine ⟨?_, ?_, ?_⟩
  · intro h
    unfold Process.wait
    rw [h]
  · intro pid hp
    refine ⟨?_, ?_, ?_⟩
    · intro hr s hs
      have hr2 : pid ∉ st.os.reaped := by simpa using hr
      unfold Process.wait waitPid
      rw [hp]
      simp [hr2, hs]
    · intro hr
      have hr2 : pid ∈ st.os.reaped := by simpa using hr
      unfold Process.wait waitPid
      rw [hp]
      simp [hr2]
      rfl
    · intro hr hs
      have hr2 : pid ∉ st.os.reaped := by simpa using hr
      unfold Process.wait waitPid
      rw [hp]
      simp [hr2, hs]
      rfl
  · intro st0 r hex
    obtain ⟨sa, pid, st4, _, _, _, hr⟩ := execute_eq p st0 r hex
    rw [hr]
    rfl

/-- C9 witness: the amended theorem applied to an executed process (pid 7,
wait status 1280 = exit code 5): the first wait returns 5 and marks the pid
reaped; the second wait returns 0 without an error. -/
theorem wait_validity_witness :
    pW9.wait stW9 = Except.ok (5, stW9r) ∧ pW9.wait stW9r = Except.ok (0, stW9r) := by
  constructor
  · have h := ((wait_validity_amended pW9 stW9).2.1 7 rfl).1 (by decide) 1280 (by decide)
    rw [h]
    rfl
  · exact ((wait_validity_amended pW9 stW9r).2.1 7 rfl).2.1 (by decide)

/-- C4: `command::run(std::nothrow_t)` first executes every process in
order, and only then waits on each in order; its value is the last wait's
exit status. Formally: it equals the two-phase composition of `executeAll`
with the status-collecting `waitStatuses`, returning the last collected
status; after the execute phase every process has a pid (was spawned before
any wait), the process list is non-empty, and there is exactly one status
per process — so the returned status is the last process's. -/
theorem run_nothrow_two_phase (c : Command) (st : St) (h : c.processes ≠ []) :
    (c.runNoThrow st =
      (executeAll c.processes st).bind (fun r =>
        (waitStatuses r.1 r.2).map (fun w => (w.1.getLastD 0, w.2)))) ∧
    (∀ r, executeAll c.processes st = Except.ok r →
      r.1 ≠ [] ∧ ∀ q ∈ r.1, q.pid.isSome = true) ∧
    (∀ r w, executeAll c.processes st = Except.ok r →
      waitStatuses r.1 r.2 = Except.ok w → w.1.length = r.1.length) := by
  refine ⟨?_, ?_, ?_⟩
  · unfold Command.runNoThrow
    cases he : executeAll c.processes st with
    | error e => rfl
    | ok r2 => exact waitLoop_eq r2.1 0 r2.2
  · intro r hr
    exact ⟨executeAll_ne_nil c.processes st r h hr, executeAll_pids c.processes st r hr⟩
  · intro r w _ hw
    exact waitStatuses_length r.1 r.2 w hw

/-- C4 witness: the theorem applied to `"false" | "true"` (child 10 exits 1,
child 11 exits 0): the pipeline exit status is the last stage's, 0. -/
theorem run_nothrow_false_true_witness :
    (cFT.runNoThrow stFT).map Prod.fst = Except.ok 0 := by
  have h := (run_nothrow_two_phase cFT stFT (by decide)).1
  rw [h]
  rfl

/-- C6: for a pair freshly linked by `create_pipe`, attempting to link
either endpoint again raises the usage error; opening either end allocates
exactly one OS pipe (one `pipeCreated` event) and assigns both endpoints its
two fds — the read end gets the read fd, the write end the write fd — and a
subsequent open() of the other end is a no-op returning the state
unchanged. -/
theorem pipe_link_exclusivity (st : St) (rd wr : Int) (rest : List (Option (Int × Int)))
    (hpipe : st.os.pipeRes = some (rd, wr) :: rest) (hrd : 0 ≤ rd) (hwr : 0 ≤ wr) :
    ∀ rId wId st1, create_pipe st = Except.ok (rId, wId, st1) →
      (∀ o, link st1 rId o = Except.error (Err.usageError linkedMsg)) ∧
      (∀ i2, link st1 i2 wId = Except.error (Err.usageError linkedMsg)) ∧
      ((openD st1 rId).map (fun s2 => ((s2.getD rId).fd, (s2.getD wId).fd))
        = Except.ok (rd, wr)) ∧
      ((openD st1 rId).map St.events
        = Except.ok (st1.events ++ [SysEvent.pipeCreated rId rd wr])) ∧
      (∀ s2, openD st1 rId = Except.ok s2 → openD s2 wId = Except.ok s2) ∧
      ((openD st1 wId).map (fun s2 => ((s2.getD rId).fd, (s2.getD wId).fd))
        = Except.ok (rd, wr)) ∧
      (∀ s2, openD st1 wId = Except.ok s2 → openD s2 rId = Except.ok s2) := by
  intro rId wId st1 hcp
  obtain ⟨st1', hcp', hk1, hp1, hf1, hk2, hp2, hf2, hos, hev⟩ := create_pipe_spec st
  rw [hcp'] at hcp
  simp only [Except.ok.injEq, Prod.mk.injEq] at hcp
  obtain ⟨hr, hw2, hst⟩ := hcp
  subst hr
  subst hw2
  subst hst
  have hne : st.next ≠ st.next + 1 := Nat.ne_of_lt (Nat.lt_succ_self _)
  have hclR : (st1'.getD st.next).closable = false := by
    rw [closable_eq_decide _ (by rw [hk1]; simp), hf1]
    rfl
  have hclW : (st1'.getD (st.next + 1)).closable = false := by
    rw [closable_eq_decide _ (by rw [hk2]; simp), hf2]
    rfl
  have hpipe1 : st1'.os.pipeRes = some (rd, wr) :: rest := by rw [hos]; exact hpipe
  have hopenR := openD_ipipe_eq st1' st.next (st.next + 1) rd wr rest hk1 hclR hpipe1 hp1
  have hopenW := openD_opipe_eq st1' (st.next + 1) st.next rd wr rest hk2 hclW hpipe1 hp2
  refine ⟨?_, ?_, ?_, ?_, ?_, ?_, ?_⟩
  · intro o
    unfold link
    rw [if_pos]
    rw [hp1]
    rfl
  · intro i2
    unfold link
    rw [if_pos]
    rw [hp2]
    simp
  · rw [hopenR]
    simp [Except.map, getD_addEvent, getD_setD, hne, Nat.succ_ne_self]
  · rw [hopenR]
    simp [Except.map, events_addEvent, events_setD, popPipe_events]
  · intro s2 h
    rw [hopenR] at h
    simp only [Except.ok.injEq] at h
    subst h
    apply openD_noop
    · left
      simp [getD_addEvent, getD_setD, hne, Nat.succ_ne_self]
      exact hwr
    · intro habs
      simp [getD_addEvent, getD_setD, hne, Nat.succ_ne_self, popPipe_getD, hk2,
            isFileKind] at habs
  · rw [hopenW]
    simp [Except.map, getD_addEvent, getD_setD, hne, Nat.succ_ne_self]
  · intro s2 h
    rw [hopenW] at h
    simp only [Except.ok.injEq] at h
    subst h
    apply openD_noop
    · left
      simp [getD_addEvent, getD_setD, hne, Nat.succ_ne_self]
      exact hrd
    · intro habs
      simp [getD_addEvent, getD_setD, hne, Nat.succ_ne_self, popPipe_getD, hk1,
            isFileKind] at habs

/-- C6 witness: the theorem applied to a fresh state whose next ::pipe
returns fds (3, 4): linking either created endpoint again errors, and
opening the read end yields fds 3 and 4 with the second open a no-op. -/
theorem pipe_link_exclusivity_witness :
    link stC6p 3 99 = Except.error (Err.usageError linkedMsg) ∧
    link stC6p 99 4 = Except.error (Err.usageError linkedMsg) ∧
    ((openD stC6p 3).map (fun s2 => ((s2.getD 3).fd, (s2.getD 4).fd)) = Except.ok (3, 4)) ∧
    ((openD stC6p 3).bind (fun s2 => openD s2 4) = openD stC6p 3) := by
  obtain ⟨ha, hb, hc, hd, he, hf, hg⟩ :=
    pipe_link_exclusivity stC6 3 4 [] rfl (by decide) (by decide) 3 4 stC6p (by rfl)
  refine ⟨ha 99, hb 99, hc, ?_⟩
  cases hx : openD stC6p 3 with
  | error e => rfl
  | ok s2 => exact he s2 hx

/-- C10: `opipe_descriptor::open` / `ipipe_descriptor::open` on a
not-yet-open endpoint writes through `linked_fd_` with no null check: after
a successful ::pipe, a null partner is undefined behavior (`Err.nullDeref`).
Under the linked-partner precondition the only failure is the ::pipe OS
error: ::pipe failure raises `os_error{"pipe"}`, and otherwise open
succeeds, assigning the read fd to the read end and the write fd to the
write end. Every pair returned by `create_pipe` is linked both ways, and
the buffer descriptors (`ovariable_descriptor`, `ivariable_descriptor`) set
their `linked_fd_` to the internal pipe member at construction. -/
theorem pipe_open_unchecked_partner (st : St) (i : Nat)
    (hk : (st.getD i).kind = DescKind.opipe ∨ (st.getD i).kind = DescKind.ipipe)
    (hfd : (st.getD i).fd < 0) :
    ((popD st.os.pipeRes none).1 = none →
      openD st i = Except.error (Err.osError ("pipe"))) ∧
    (∀ rd wr, (popD st.os.pipeRes none).1 = some (rd, wr) →
      ((st.getD i).partner = none → openD st i = Except.error Err.nullDeref) ∧
      (∀ j, (st.getD i).partner = some j → j ≠ i →
        (openD st i).map (fun s => ((s.getD i).fd, (s.getD j).fd)) =
          Except.ok (if (st.getD i).kind = DescKind.ipipe then (rd, wr) else (wr, rd)))) ∧
    (∀ st0 rI wI stp, create_pipe st0 = Except.ok (rI, wI, stp) →
      (stp.getD rI).partner = some wI ∧ (stp.getD wI).partner = some rI) ∧
    (∀ st0 : St, (((allocOVar st0).2).getD (allocOVar st0).1).partner.isSome = true) ∧
    (∀ (st0 : St) (s : String),
      (((allocIVar st0 s).2).getD (allocIVar st0 s).1).partner.isSome = true) := by
  have hcl : (st.getD i).closable = false := by
    rw [closable_eq_decide _ (by rcases hk with hk | hk <;> rw [hk] <;> simp)]
    exact decide_eq_false (not_le.mpr hfd)
  refine ⟨?_, ?_, ?_, ?_, ?_⟩
  · intro h
    have hpp : (popPipe st).1 = none := h
    unfold openD
    rcases hk with hk | hk <;> simp [hk, hcl, hpp]
  · intro rd wr h
    have hpp : (popPipe st).1 = some (rd, wr) := h
    constructor
    · intro hpa
      unfold openD
      rcases hk with hk | hk <;> simp [hk, hcl, hpp, hpa]
    · intro j hpa hji
      have hrest : ∃ rest, st.os.pipeRes = some (rd, wr) :: rest := by
        cases hl : st.os.pipeRes with
        | nil => rw [hl] at h; exact absurd h (by simp [popD])
        | cons a l =>
          rw [hl] at h
          simp only [popD] at h
          exact ⟨l, by rw [h]⟩
      obtain ⟨rest, hrest⟩ := hrest
      rcases hk with hk | hk
      · rw [openD_opipe_eq st i j rd wr rest hk hcl hrest hpa]
        rw [if_neg (by rw [hk]; simp)]
        simp [Except.map, getD_addEvent, getD_setD, hji, Ne.symm hji]
      · rw [openD_ipipe_eq st i j rd wr rest hk hcl hrest hpa]
        rw [if_pos hk]
        simp [Except.map, getD_addEvent, getD_setD, hji, Ne.symm hji]
  · intro st0 rI wI stp hcp
    obtain ⟨st1', hcp', _, hp1, _, _, hp2, _, _, _⟩ := create_pipe_spec st0
    rw [hcp'] at hcp
    simp only [Except.ok.injEq, Prod.mk.injEq] at hcp
    obtain ⟨hr, hw2, hst⟩ := hcp
    subst hr
    subst hw2
    subst hst
    exact ⟨hp1, hp2⟩
  · intro st0
    have h : (((st0.alloc { kind := DescKind.ovar, partner := some (st0.next + 1) }).alloc { kind := DescKind.ipipe }).getD st0.next) = ({ kind := DescKind.ovar, partner := some (st0.next + 1) } : Desc) := by
      rw [getD_alloc_other]
      · exact getD_alloc_self st0 _
      · rw [alloc_next]
        exact Nat.ne_of_lt (Nat.lt_succ_self _)
    simp [allocOVar, h]
  · intro st0 s
    have h : (((st0.alloc { kind := DescKind.ivar, input := s, partner := some (st0.next + 1) }).alloc { kind := DescKind.opipe }).getD st0.next) = ({ kind := DescKind.ivar, input := s, partner := some (st0.next + 1) } : Desc) := by
      rw [getD_alloc_other]
      · exact getD_alloc_self st0 _
      · rw [alloc_next]
        exact Nat.ne_of_lt (Nat.lt_succ_self _)
    simp [allocIVar, h]

/-- C10 witness: an unlinked write end crashes on the null partner after a
successful ::pipe; the linked pair opens to fds (4, 3) on the write/read
ends; a failing ::pipe raises the OS error. -/
theorem pipe_open_unchecked_partner_witness :
    openD stC10a 0 = Except.error Err.nullDeref ∧
    ((openD stC10b 0).map (fun s => ((s.getD 0).fd, (s.getD 1).fd)) = Except.ok (4, 3)) ∧
    openD stC10c 0 = Except.error (Err.osError ("pipe")) := by
  obtain ⟨_, h2a, _, _, _⟩ := pipe_open_unchecked_partner stC10a 0 (Or.inl rfl) (by decide)
  obtain ⟨_, h2b, _, _, _⟩ := pipe_open_unchecked_partner stC10b 0 (Or.inl rfl) (by decide)
  obtain ⟨h1c, _, _, _, _⟩ := pipe_open_unchecked_partner stC10c 0 (Or.inl rfl) (by decide)
  refine ⟨(h2a 3 4 rfl).1 rfl, ?_, h1c rfl⟩
  have h := (h2b 3 4 rfl).2 1 rfl (by decide)
  exact h.trans (by rfl)

/-- C7: `posix_spawn_file_actions::close` records a close action only for a
closable descriptor whose fd was not already added: folding any sequence of
close calls from an empty builder yields pairwise-distinct close-action fds,
and an fd is recorded iff some closable descriptor in the sequence carries
it. Consequently, for a process whose stderr is aliased to its stdout (the
same shared descriptor) and whose stdin is a standard stream, a successful
execute() records exactly one close action — the shared descriptor's fd. -/
theorem spawn_close_dedup :
    (∀ ds : List Desc,
      ((ds.foldl FileActions.close {}).actions.filterMap closeFdOf).Nodup ∧
      (∀ f, f ∈ (ds.foldl FileActions.close {}).actions.filterMap closeFdOf ↔
            ∃ d ∈ ds, d.closable = true ∧ d.fd = f)) ∧
    (∀ (p : Process) (st : St) (r : ExecResult),
      p.stdout_fd = p.stderr_fd →
      (st.getD p.stdin_fd).kind = DescKind.plain →
      (st.getD p.stdout_fd).kind ≠ DescKind.plain →
      pipeWF st.os = true →
      (st.getD p.stdout_fd).partner ≠ some p.stdout_fd →
      execute p st = Except.ok r →
      ∃ f, 0 ≤ f ∧ r.actions.filterMap closeFdOf = [f]) := by
  constructor
  · intro ds
    obtain ⟨x1, x2, x3⟩ := close_fold_inv ds {} List.nodup_nil rfl
    refine ⟨by rw [x2]; exact x1, ?_⟩
    intro f
    rw [x2, x3 f]
    simp
  · intro p st r halias hin hout hwf hns hex
    obtain ⟨sa, pid, st4, hop, hw, hsp, hr⟩ := execute_eq p st r hex
    obtain ⟨st1, st2, h1, h2, h3, ha⟩ := openPhase_eq p _ sa hop
    have h1' : openD (popWordexp st).2 p.stdin_fd = Except.ok (popWordexp st).2 :=
      openD_plain _ _ hin
    have hst1 : st1 = (popWordexp st).2 := by
      have hq := h1'.symm.trans h1
      injection hq with hq2
      exact hq2.symm
    subst hst1
    have wfW : pipeWF (popWordexp st).2.os = true := popWordexp_pipeWF st hwf
    have f2 : 0 ≤ (st2.getD p.stdout_fd).fd :=
      openD_self_fd _ _ _ wfW hns h2 hout
    have wf2 : pipeWF st2.os = true := openD_pipeWF _ _ _ h2 wfW
    have stat2 := fun j => openD_static _ _ _ j h2
    have hk2 : (st2.getD p.stdout_fd).kind ≠ DescKind.plain := by
      rw [(stat2 p.stdout_fd).1]; exact hout
    have hns2 : (st2.getD p.stdout_fd).partner ≠ some p.stdout_fd := by
      rw [(stat2 p.stdout_fd).2]; exact hns
    have h3' : openD st2 p.stdout_fd = Except.ok sa.1 := by
      rw [halias]; exact h3
    have f3 : 0 ≤ (sa.1.getD p.stdout_fd).fd := openD_self_fd _ _ _ wf2 hns2 h3' hk2
    have stat3 := fun j => openD_static _ _ _ j h3
    have hkA : (sa.1.getD p.stdout_fd).kind ≠ DescKind.plain := by
      rw [(stat3 p.stdout_fd).1, (stat2 p.stdout_fd).1]; exact hout
    have hclA : (sa.1.getD p.stdout_fd).closable = true := by
      rw [closable_eq_decide _ hkA]; exact decide_eq_true f3
    have hkin : (sa.1.getD p.stdin_fd).kind = DescKind.plain := by
      rw [(stat3 p.stdin_fd).1, (stat2 p.stdin_fd).1]; exact hin
    have hclin : (sa.1.getD p.stdin_fd).closable = false := plain_not_closable _ hkin
    refine ⟨(sa.1.getD p.stdout_fd).fd, f3, ?_⟩
    rw [hr]
    show sa.2.actions.filterMap closeFdOf = _
    rw [ha]
    rw [show (sa.1.getD p.stderr_fd) = (sa.1.getD p.stdout_fd) from by rw [← halias]]
    rw [close_skip _ _ hclin]
    have hnm : (sa.1.getD p.stdout_fd).fd ∉
        (((({} : FileActions).dup ((popWordexp st).2.getD p.stdin_fd) 0).dup
          (st2.getD p.stdout_fd) 1).dup (sa.1.getD p.stdout_fd) 2).closed_fds :=
      List.not_mem_nil _
    rw [close_add _ _ hclA hnm]
    simp [FileActions.close, FileActions.dup, closeFdOf, List.filterMap_append]

/-- C7 witness: the theorem applied to a process whose stderr is aliased to
its stdout (both slot 3, the write end of a linked pipe): the recorded close
actions contain exactly one fd. -/
theorem spawn_close_dedup_witness : (rC7.actions.filterMap closeFdOf).length = 1 := by
  obtain ⟨f, hf, he⟩ := spawn_close_dedup.2 pC7 stC7 rC7 rfl rfl (by decide) (by decide)
    (by decide) (by rfl)
  rw [he]
  rfl

/-- C5: after execute() returns successfully, every closable (non
standard-stream) descriptor among the process's stdin, stdout and stderr has
fd() = -1, and the events appended by execute() split around the single
spawn event: no parent-side close of any slot happens before the spawn, and
after it each distinct slot is closed exactly once if closable and never
otherwise (an aliased slot is closed once, a standard stream never).
Hypotheses: ::pipe returns valid fds, and slot partners lie outside the slot
set, as in every pipeline the library builds. -/
theorem execute_spawn_close_parity (p : Process) (st : St) (r : ExecResult)
    (hwf : pipeWF st.os = true)
    (hpd : ∀ s ∈ slotsOf p, ∀ j, (st.getD s).partner = some j → j ∉ slotsOf p)
    (hex : execute p st = Except.ok r) :
    (∀ i ∈ slotsOf p, (st.getD i).kind ≠ DescKind.plain → (r.st.getD i).fd = -1) ∧
    (∃ pre post pid, r.st.events = st.events ++ pre ++ SysEvent.spawned pid :: post ∧
      r.proc.pid = some pid ∧
      (∀ i ∈ slotsOf p, countClosedFd pre i = 0) ∧
      (∀ i ∈ slotsOf p, countClosedFd post i =
        (if (st.getD i).kind = DescKind.plain then 0 else 1))) := by
  obtain ⟨sa, pid, st4, hop, hwx, hsp, hr⟩ := execute_eq p st r hex
  have m0 : p.stdin_fd ∈ slotsOf p := by simp [slotsOf]
  have m1 : p.stdout_fd ∈ slotsOf p := by simp [slotsOf]
  have m2 : p.stderr_fd ∈ slotsOf p := by simp [slotsOf]
  have hwfW : pipeWF (popWordexp st).2.os = true := popWordexp_pipeWF st hwf
  have hfdA : ∀ s ∈ slotsOf p, (st.getD s).kind ≠ DescKind.plain → 0 ≤ (sa.1.getD s).fd :=
    fun s hs hk => openPhase_slot_fd p _ sa hop hwfW hpd s hs hk
  have hstatA : ∀ j, (sa.1.getD j).kind = (st.getD j).kind ∧
      (sa.1.getD j).partner = (st.getD j).partner := fun j => openPhase_static p _ sa hop j
  have h4g : ∀ j, st4.getD j = sa.1.getD j := by
    intro j
    rw [show st4 = (popSpawn sa.1).2 from (congrArg Prod.snd hsp).symm]
    rfl
  have h4e : st4.events = sa.1.events := by
    rw [show st4 = (popSpawn sa.1).2 from (congrArg Prod.snd hsp).symm]
    rfl
  have g5 : ∀ j, (st4.addEvent (SysEvent.spawned pid)).getD j = sa.1.getD j := fun j => by
    rw [getD_addEvent]; exact h4g j
  have k5 : ∀ j, ((st4.addEvent (SysEvent.spawned pid)).getD j).kind = (st.getD j).kind :=
    fun j => by rw [g5 j]; exact (hstatA j).1
  have p5 : ∀ j, ((st4.addEvent (SysEvent.spawned pid)).getD j).partner
      = (st.getD j).partner := fun j => by rw [g5 j]; exact (hstatA j).2
  have cl5 : ∀ s ∈ slotsOf p, (st.getD s).kind ≠ DescKind.plain →
      ((st4.addEvent (SysEvent.spawned pid)).getD s).closable = true := by
    intro s hs hk
    rw [closable_eq_decide _ (by rw [k5 s]; exact hk)]
    refine decide_eq_true ?_
    rw [g5 s]
    exact hfdA s hs hk
  have p6 : ∀ j, ((closeD (st4.addEvent (SysEvent.spawned pid)) p.stdin_fd).getD j).partner
      = (st.getD j).partner :=
    fun j => ((closeD_static _ p.stdin_fd j).2).trans (p5 j)
  have k6 : ∀ j, ((closeD (st4.addEvent (SysEvent.spawned pid)) p.stdin_fd).getD j).kind
      = (st.getD j).kind :=
    fun j => ((closeD_static _ p.stdin_fd j).1).trans (k5 j)
  have p7 : ∀ j, ((closeD (closeD (st4.addEvent (SysEvent.spawned pid)) p.stdin_fd)
      p.stdout_fd).getD j).partner = (st.getD j).partner :=
    fun j => ((closeD_static _ p.stdout_fd j).2).trans (p6 j)
  have k7 : ∀ j, ((closeD (closeD (st4.addEvent (SysEvent.spawned pid)) p.stdin_fd)
      p.stdout_fd).getD j).kind = (st.getD j).kind :=
    fun j => ((closeD_static _ p.stdout_fd j).1).trans (k6 j)
  constructor
  · intro i hi hk
    rw [hr]
    show ((closeD (closeD (closeD (st4.addEvent (SysEvent.spawned pid)) p.stdin_fd)
      p.stdout_fd) p.stderr_fd).getD i).fd = -1
    by_cases c0 : p.stdin_fd = i
    · have h1n : ((closeD (st4.addEvent (SysEvent.spawned pid)) p.stdin_fd).getD i).fd
          = -1 := by
        rw [c0]
        exact closeD_self_fd _ i (cl5 i hi hk)
      exact closeD_keep_neg _ _ _ (closeD_keep_neg _ _ _ h1n)
    · have fr1 : (closeD (st4.addEvent (SysEvent.spawned pid)) p.stdin_fd).getD i
          = (st4.addEvent (SysEvent.spawned pid)).getD i :=
        closeD_frame _ _ _ (fun h => c0 h.symm)
          (by rw [p5 p.stdin_fd]; intro hq; exact hpd p.stdin_fd m0 i hq hi)
      by_cases c1 : p.stdout_fd = i
      · have h2n : ((closeD (closeD (st4.addEvent (SysEvent.spawned pid)) p.stdin_fd)
            p.stdout_fd).getD i).fd = -1 := by
          rw [c1]
          apply closeD_self_fd
          rw [fr1]
          exact cl5 i hi hk
        exact closeD_keep_neg _ _ _ h2n
      · have c2 : p.stderr_fd = i := by
          rcases (by simpa [slotsOf] using hi :
              i = p.stdin_fd ∨ i = p.stdout_fd ∨ i = p.stderr_fd) with h | h | h
          · exact absurd h.symm c0
          · exact absurd h.symm c1
          · exact h.symm
        have fr2 : (closeD (closeD (st4.addEvent (SysEvent.spawned pid)) p.stdin_fd)
            p.stdout_fd).getD i = (st4.addEvent (SysEvent.spawned pid)).getD i := by
          rw [closeD_frame _ _ _ (fun h => c1 h.symm)
            (by rw [p6 p.stdout_fd]; intro hq; exact hpd p.stdout_fd m1 i hq hi), fr1]
        rw [c2]
        apply closeD_self_fd
        rw [fr2]
        exact cl5 i hi hk
  · obtain ⟨pre, epre, cpre⟩ := openPhase_events p _ sa hop hpd
    obtain ⟨cA, eA, cntA, othA⟩ := closeD_events (st4.addEvent (SysEvent.spawned pid))
      p.stdin_fd
    obtain ⟨cB, eB, cntB, othB⟩ := closeD_events
      (closeD (st4.addEvent (SysEvent.spawned pid)) p.stdin_fd) p.stdout_fd
    obtain ⟨cC, eC, cntC, othC⟩ := closeD_events
      (closeD (closeD (st4.addEvent (SysEvent.spawned pid)) p.stdin_fd) p.stdout_fd)
      p.stderr_fd
    refine ⟨pre, cA ++ cB ++ cC, pid, ?_, ?_, cpre, ?_⟩
    · rw [hr]
      show (closeD (closeD (closeD (st4.addEvent (SysEvent.spawned pid)) p.stdin_fd)
        p.stdout_fd) p.stderr_fd).events = _
      rw [eC, eB, eA, events_addEvent, h4e, epre, popWordexp_events]
      simp [List.append_assoc]
    · rw [hr]
    · intro i hi
      rw [countClosedFd_append, countClosedFd_append]
      by_cases hkp : (st.getD i).kind = DescKind.plain
      · rw [if_pos hkp]
        have zA : countClosedFd cA i = 0 := by
          by_cases c0 : p.stdin_fd = i
          · rw [c0] at cntA
            rw [cntA, plain_not_closable _ ((k5 i).trans hkp)]
            rfl
          · by_contra hz
            have hq := othA i (fun h => c0 h.symm) hz
            rw [p5 p.stdin_fd] at hq
            exact hpd p.stdin_fd m0 i hq hi
        have zB : countClosedFd cB i = 0 := by
          by_cases c1 : p.stdout_fd = i
          · rw [c1] at cntB
            rw [cntB, plain_not_closable _ ((k6 i).trans hkp)]
            rfl
          · by_contra hz
            have hq := othB i (fun h => c1 h.symm) hz
            rw [p6 p.stdout_fd] at hq
            exact hpd p.stdout_fd m1 i hq hi
        have zC : countClosedFd cC i = 0 := by
          by_cases c2 : p.stderr_fd = i
          · rw [c2] at cntC
            rw [cntC, plain_not_closable _ ((k7 i).trans hkp)]
            rfl
          · by_contra hz
            have hq := othC i (fun h => c2 h.symm) hz
            rw [p7 p.stderr_fd] at hq
            exact hpd p.stderr_fd m2 i hq hi
        rw [zA, zB, zC]
      · rw [if_neg hkp]
        by_cases c0 : p.stdin_fd = i
        · have vA : countClosedFd cA i = 1 := by
            rw [c0] at cntA
            rw [cntA, cl5 i hi hkp]
            rfl
          have hneg1 : ((closeD (st4.addEvent (SysEvent.spawned pid)) p.stdin_fd).getD i).fd
              = -1 := by
            rw [c0]
            exact closeD_self_fd _ i (cl5 i hi hkp)
          have vB : countClosedFd cB i = 0 := by
            by_cases c1 : p.stdout_fd = i
            · rw [c1] at cntB
              rw [cntB, closable_of_fd_neg _ hneg1]
              rfl
            · by_contra hz
              have hq := othB i (fun h => c1 h.symm) hz
              rw [p6 p.stdout_fd] at hq
              exact hpd p.stdout_fd m1 i hq hi
          have vC : countClosedFd cC i = 0 := by
            by_cases c2 : p.stderr_fd = i
            · rw [c2] at cntC
              rw [cntC, closable_of_fd_neg _ (closeD_keep_neg _ _ _ hneg1)]
              rfl
            · by_contra hz
              have hq := othC i (fun h => c2 h.symm) hz
              rw [p7 p.stderr_fd] at hq
              exact hpd p.stderr_fd m2 i hq hi
          rw [vA, vB, vC]
        · have vA : countClosedFd cA i = 0 := by
            by_contra hz
            have hq := othA i (fun h => c0 h.symm) hz
            rw [p5 p.stdin_fd] at hq
            exact hpd p.stdin_fd m0 i hq hi
          have fr1 : (closeD (st4.addEvent (SysEvent.spawned pid)) p.stdin_fd).getD i
              = (st4.addEvent (SysEvent.spawned pid)).getD i :=
            closeD_frame _ _ _ (fun h => c0 h.symm)
              (by rw [p5 p.stdin_fd]; intro hq; exact hpd p.stdin_fd m0 i hq hi)
          by_cases c1 : p.stdout_fd = i
          · have vB : countClosedFd cB i = 1 := by
              rw [c1] at cntB
              rw [cntB, show ((closeD (st4.addEvent (SysEvent.spawned pid))
                p.stdin_fd).getD i).closable = true from by rw [fr1]; exact cl5 i hi hkp]
              rfl
            have hneg2 : ((closeD (closeD (st4.addEvent (SysEvent.spawned pid)) p.stdin_fd)
                p.stdout_fd).getD i).fd = -1 := by
              rw [c1]
              apply closeD_self_fd
              rw [fr1]
              exact cl5 i hi hkp
            have vC : countClosedFd cC i = 0 := by
              by_cases c2 : p.stderr_fd = i
              · rw [c2] at cntC
                rw [cntC, closable_of_fd_neg _ hneg2]
                rfl
              · by_contra hz
                have hq := othC i (fun h => c2 h.symm) hz
                rw [p7 p.stderr_fd] at hq
                exact hpd p.stderr_fd m2 i hq hi
            rw [vA, vB, vC]
          · have c2 : p.stderr_fd = i := by
              rcases (by simpa [slotsOf] using hi :
                  i = p.stdin_fd ∨ i = p.stdout_fd ∨ i = p.stderr_fd) with h | h | h
              · exact absurd h.symm c0
              · exact absurd h.symm c1
              · exact h.symm
            have vB : countClosedFd cB i = 0 := by
              by_contra hz
              have hq := othB i (fun h => c1 h.symm) hz
              rw [p6 p.stdout_fd] at hq
              exact hpd p.stdout_fd m1 i hq hi
            have fr2 : (closeD (closeD (st4.addEvent (SysEvent.spawned pid)) p.stdin_fd)
                p.stdout_fd).getD i = (st4.addEvent (SysEvent.spawned pid)).getD i := by
              rw [closeD_frame _ _ _ (fun h => c1 h.symm)
                (by rw [p6 p.stdout_fd]; intro hq; exact hpd p.stdout_fd m1 i hq hi), fr1]
            have vC : countClosedFd cC i = 1 := by
              rw [c2] at cntC
              rw [cntC, show ((closeD (closeD (st4.addEvent (SysEvent.spawned pid))
                p.stdin_fd) p.stdout_fd).getD i).closable = true from by
                  rw [fr2]; exact cl5 i hi hkp]
              rfl
            rw [vA, vB, vC]

/-- C5 witness: the theorem applied to a process whose stdout is the write
end of a linked pipe (heap index 3): after execute, that descriptor's fd is
-1. -/
theorem execute_spawn_close_parity_witness : (rC5.st.getD 3).fd = -1 := by
  have hpdC : ∀ s ∈ slotsOf pC5, ∀ j, (stC5.getD s).partner = some j → j ∉ slotsOf pC5 := by
    intro s hs j hq
    have hs' : s = 0 ∨ s = 3 ∨ s = 2 := by simpa [slotsOf, pC5] using hs
    rcases hs' with rfl | rfl | rfl
    · exact Option.noConfusion hq
    · have h4 := Option.some.inj hq
      subst h4
      decide
    · exact Option.noConfusion hq
  exact (execute_spawn_close_parity pC5 stC5 rC5 (by decide) hpdC (by rfl)).1 3
    (by decide) (by decide)

end Subprocess
